import Mathlib

/-!
# go-multiaddr: buffer walk, encapsulation, decapsulation and the registry

A shallow embedding of `index.go` (package `multiaddr`) and of `registry.go`
(package `manet`).

* Go byte slices and Go strings are lists of bytes (`Fin 256`); a Go string is
  an arbitrary byte sequence, so `len`, slicing and `strings.LastIndex` are
  byte-indexed.
* Go `int` values are `Int`.  The only arithmetic is `1 + p.Size/8`, which cannot
  leave the range of `int`; Go's `/` truncates toward zero (`Int.tdiv`).
* Functions with several results return a pair, a nil pointer / nil slice / nil
  error is `none`.
* `ProtocolWithCode`, `StringToBytes` and `BytesToString` are declared in other
  files of the package; the functions that call them take them as parameters.
* The `for` loop of `Protocols` is iterated with fuel: one unit of fuel per
  evaluation of the loop condition; `none` means the fuel ran out.
* A run-time panic is an explicit outcome, turned into an error result by the
  deferred `recover` handler of `Protocols`.
* `Multiaddr` carries the contents of its buffer.  Where the storage of a slice
  matters (backing array, length, capacity), `HeapMultiaddr` carries a slice
  value on an explicit heap of backing arrays.
* The registry of `registry.go` is a pair of maps passed explicitly.
-/

namespace GoMultiaddr

/-! ## Data model -/

/-- A Go `byte`. -/
abbrev Byte := Fin 256

/-- A Go `string`: an immutable sequence of bytes. -/
abbrev GoString := List Byte

/-- The bytes of an ASCII literal, as written in the Go source. -/
def ascii (s : String) : GoString :=
  s.toList.map (fun c => Fin.ofNat c.toNat)

/-- The verb `%d` of package `fmt` applied to a `byte`: its decimal digits. -/
def formatD (b : Byte) : GoString :=
  ascii (Nat.repr b.val)

/-- Modelled from the spec: the `Protocol` struct, declared outside `index.go`
(spec section 3: `code`, `name`, `size`, the value width in bits). -/
structure Protocol where
  Code : Int
  Size : Int
  Name : GoString
  deriving DecidableEq, Repr

/-- The struct `Multiaddr` (index.go:8-10). -/
structure Multiaddr where
  Bytes : List Byte
  deriving DecidableEq, Repr

/-- The run-time panic of a slice expression `b[low:]` whose bound is out of
range (`low < 0` or `low > len(b)`).  Its value is a `runtime.Error`, which
implements `error`. -/
inductive RuntimeError where
  | sliceBounds (low : Int) (len : Nat)
  deriving DecidableEq, Repr

/-- The error values that reach a caller of `index.go`, one constructor per
place that creates them. -/
inductive GoError where
  /-- The error of `fmt.Errorf("no protocol with code %d", b[0])` (index.go:39). -/
  | noProtocolWithCode (c : Byte)
  /-- The error of `fmt.Errorf("%s not contained in %s", s2, s1)` (index.go:66). -/
  | notContained (s2 s1 : GoString)
  /-- A recovered run-time panic, `err = e.(error)` (index.go:30). -/
  | runtime (e : RuntimeError)
  /-- An error returned by `StringToBytes` or `BytesToString`, kept by its text. -/
  | codec (msg : GoString)
  deriving DecidableEq, Repr

/-- The method `Error()` of an error value: its text. -/
def GoError.Error : GoError → GoString
  | .noProtocolWithCode c => ascii "no protocol with code " ++ formatD c
  | .notContained s2 s1 => s2 ++ ascii " not contained in " ++ s1
  | .runtime (.sliceBounds _ _) => ascii "runtime error: slice bounds out of range"
  | .codec msg => msg

/-- How a function body ends: by a `return`, or by a run-time panic. -/
inductive Outcome (α : Type) where
  | returned (v : α)
  | panicked (e : RuntimeError)
  deriving DecidableEq, Repr

/-- The two named results `(ret []*Protocol, err error)` of `Protocols`. -/
structure ProtocolsResult where
  ret : Option (List Protocol)
  err : Option GoError
  deriving DecidableEq, Repr

/-- One evaluation of the loop of `Protocols`: leave the function, or go on
with a new `ps` and `b`. -/
inductive LoopStep where
  | exit (o : Outcome ProtocolsResult)
  | next (ps : List Protocol) (b : List Byte)
  deriving DecidableEq, Repr

/-! ## `Protocols` (index.go:24-45) -/

/-- The width `1 + (p.Size/8)` by which the walk advances (index.go:42). -/
def segmentWidth (p : Protocol) : Int :=
  1 + p.Size.tdiv 8

/-- The loop condition and body of `Protocols` (index.go:36-43), and the
`return ps, nil` that follows the loop (index.go:44). -/
def ProtocolsLoopBody (ProtocolWithCode : Int → Option Protocol)
    (ps : List Protocol) (b : List Byte) : LoopStep :=
  match b with
  | [] => .exit (.returned ⟨some ps, none⟩)
  | b0 :: _ =>
    match ProtocolWithCode (b0.val : Int) with
    | none => .exit (.returned ⟨none, some (.noProtocolWithCode b0)⟩)
    | some p =>
      let low : Int := segmentWidth p
      if 0 ≤ low ∧ low ≤ (b.length : Int) then
        .next (ps ++ [p]) (b.drop low.toNat)
      else
        .exit (.panicked (.sliceBounds low b.length))

/-- The `for` loop of `Protocols`, with one unit of fuel per evaluation of the
loop condition. -/
def ProtocolsLoop (ProtocolWithCode : Int → Option Protocol) :
    Nat → List Protocol → List Byte → Option (Outcome ProtocolsResult)
  | 0, _, _ => none
  | fuel + 1, ps, b =>
    match ProtocolsLoopBody ProtocolWithCode ps b with
    | .exit o => some o
    | .next ps1 b1 => ProtocolsLoop ProtocolWithCode fuel ps1 b1

/-- The method `Protocols` (index.go:24-45): the loop started on `[]` and
`m.Bytes[:]`, then the deferred handler (index.go:27-32), which leaves a normal
return alone and replaces a panic by `ret = nil, err = e.(error)`. -/
def Multiaddr.Protocols (ProtocolWithCode : Int → Option Protocol) (fuel : Nat)
    (m : Multiaddr) : Option ProtocolsResult :=
  match ProtocolsLoop ProtocolWithCode fuel [] m.Bytes with
  | none => none
  | some (.returned r) => some r
  | some (.panicked e) => some ⟨none, some (.runtime e)⟩

/-- The states `(ps, b)` the walk gets to from a given state, through
iterations of the loop body that do not leave the function. -/
inductive WalkReaches (ProtocolWithCode : Int → Option Protocol) :
    List Protocol → List Byte → List Protocol → List Byte → Prop where
  | here (ps : List Protocol) (b : List Byte) : WalkReaches ProtocolWithCode ps b ps b
  | step {ps b ps1 b1 ps2 b2} :
      ProtocolsLoopBody ProtocolWithCode ps b = .next ps1 b1 →
      WalkReaches ProtocolWithCode ps1 b1 ps2 b2 →
      WalkReaches ProtocolWithCode ps b ps2 b2

/-- The sum over `ps` of the widths `1 + p.Size/8`. -/
def widthSum (ps : List Protocol) : Int :=
  (ps.map segmentWidth).sum

/-- A buffer written as in the binary wire format: each segment is its code
byte followed by its value bytes. -/
def encodeSegments : List (Byte × List Byte) → List Byte
  | [] => []
  | (c, v) :: rest => c :: (v ++ encodeSegments rest)

/-! ## `Encapsulate` (index.go:47-51) -/

/-- The method `Encapsulate`: the slice made on index.go:48 is overwritten on
the next line by `append(m.Bytes, o.Bytes...)`, whose contents are the bytes of
`m` followed by the bytes of `o`.  This is the contents of the result of one
call only: which backing array it is stored in is not part of this definition.
Sequences of calls, whose results and operands can share a backing array, are
on `HeapMultiaddr.Encapsulate`. -/
def Multiaddr.Encapsulate (m o : Multiaddr) : Multiaddr :=
  let b : List Byte := m.Bytes ++ o.Bytes
  { Bytes := b }

/-! ## `NewMultiaddr`, `String` and `Decapsulate` (index.go:12-22, 53-69) -/

/-- The function `NewMultiaddr` (index.go:12-18).  `StringToBytes` returns the
pair `(b, err)`; its error is represented by its text. -/
def NewMultiaddr (StringToBytes : GoString → List Byte × Option GoString)
    (s : GoString) : Option Multiaddr × Option GoError :=
  match StringToBytes s with
  | (_, some err) => (none, some (.codec err))
  | (b, none) => (some { Bytes := b }, none)

/-- The method `String` (index.go:20-22): the two results of `BytesToString`,
handed on as they are. -/
def Multiaddr.String (BytesToString : List Byte → GoString × Option GoString)
    (m : Multiaddr) : GoString × Option GoError :=
  match BytesToString m.Bytes with
  | (s, err) => (s, err.map GoError.codec)

/-- The comparison `s[i:i+len(substr)] == substr` of Go strings: `substr` occurs
in `s` at byte index `i`. -/
def OccursAt (substr s : GoString) (i : Nat) : Prop :=
  i + substr.length ≤ s.length ∧ (s.drop i).take substr.length = substr

instance (substr s : GoString) (i : Nat) : Decidable (OccursAt substr s i) :=
  inferInstanceAs (Decidable (_ ∧ _))

/-- The search of `strings.LastIndex` on the suffix `t` of a string that starts
at index `i`: the greatest index at or after `i` where `substr` occurs, or `-1`. -/
def lastIndexFrom (substr : GoString) : GoString → Nat → Int
  | [], i => if substr = [] then (i : Int) else -1
  | c :: t, i =>
    let r := lastIndexFrom substr t (i + 1)
    if 0 ≤ r then r
    else if substr <+: c :: t then (i : Int) else -1

/-- The function `strings.LastIndex` of the Go standard library: the index of
the last instance of `substr` in `s`, or `-1` if `substr` is not present in `s`
(for the empty `substr` that is `len(s)`). -/
def LastIndex (s substr : GoString) : Int :=
  lastIndexFrom substr s 0

/-- The method `Decapsulate` (index.go:53-69).  The slice `s1[:i]` is taken with
`0 ≤ i ≤ len(s1)`, see `LastIndex_le_length`, so it cannot panic. -/
def Multiaddr.Decapsulate (StringToBytes : GoString → List Byte × Option GoString)
    (BytesToString : List Byte → GoString × Option GoString)
    (m o : Multiaddr) : Option Multiaddr × Option GoError :=
  match m.String BytesToString with
  | (_, some err) => (none, some err)
  | (s1, none) =>
    match o.String BytesToString with
    | (_, some err) => (none, some err)
    | (s2, none) =>
      let i : Int := LastIndex s1 s2
      if i < 0 then
        (none, some (.notContained s2 s1))
      else
        NewMultiaddr StringToBytes (s1.take i.toNat)

/-! ## Example protocol table -/

/-- An example of a protocol table: `ip4` (code 4, 32 bits) and `tcp` (code 6,
16 bits). -/
def exampleProtocolWithCode (c : Int) : Option Protocol :=
  if c = 4 then some ⟨4, 32, ascii "ip4"⟩
  else if c = 6 then some ⟨6, 16, ascii "tcp"⟩
  else none

/-- The buffer of `/ip4/127.0.0.1/tcp/4001`. -/
def exampleAddr : Multiaddr :=
  { Bytes := [4, 127, 0, 0, 1, 6, 15, 161] }

/-! ## Example codec

A small text codec for `ip4` and `tcp`, used to instantiate the parameters
`StringToBytes` and `BytesToString` at concrete inputs. -/

/-- The decimal digits of a number. -/
def decimal (n : Nat) : GoString :=
  ascii (Nat.repr n)

/-- The number written by a non-empty string of decimal digits. -/
def parseDecimal (s : GoString) : Option Nat :=
  if s = [] then none
  else s.foldl (fun acc c =>
    acc.bind fun n =>
      if 48 ≤ c.val ∧ c.val ≤ 57 then some (10 * n + (c.val - 48)) else none) (some 0)

/-- The pieces of a string between the occurrences of a separator. -/
def splitOn (sep : Byte) : GoString → List GoString
  | [] => [[]]
  | c :: t =>
    match splitOn sep t with
    | [] => [[]]
    | w :: ws => if c = sep then [] :: w :: ws else (c :: w) :: ws

/-- Renders a buffer of `ip4` and `tcp` segments, e.g. `/ip4/10.0.0.1/tcp/80`. -/
def exampleBytesToString : List Byte → GoString × Option GoString
  | [] => ([], none)
  | code :: rest =>
    if code = 4 then
      match rest with
      | a :: b :: c :: d :: rest1 =>
        match exampleBytesToString rest1 with
        | (s, none) =>
          (ascii "/ip4/" ++ decimal a.val ++ ascii "." ++ decimal b.val ++ ascii "."
            ++ decimal c.val ++ ascii "." ++ decimal d.val ++ s, none)
        | (_, some err) => ([], some err)
      | _ => ([], some (ascii "truncated ip4 value"))
    else if code = 6 then
      match rest with
      | hi :: lo :: rest1 =>
        match exampleBytesToString rest1 with
        | (s, none) => (ascii "/tcp/" ++ decimal (256 * hi.val + lo.val) ++ s, none)
        | (_, some err) => ([], some err)
      | _ => ([], some (ascii "truncated tcp value"))
    else ([], some (ascii "unknown protocol code"))

/-- The segments written by a list of alternating protocol names and values. -/
def exampleEncodeTokens : List GoString → Option (List Byte)
  | [] => some []
  | [_] => none
  | name :: value :: rest =>
    if name = ascii "ip4" then
      match (splitOn 46 value).map parseDecimal with
      | [some a, some b, some c, some d] =>
        if a < 256 ∧ b < 256 ∧ c < 256 ∧ d < 256 then
          (exampleEncodeTokens rest).map
            (fun t => 4 :: Fin.ofNat a :: Fin.ofNat b :: Fin.ofNat c :: Fin.ofNat d :: t)
        else none
      | _ => none
    else if name = ascii "tcp" then
      match parseDecimal value with
      | some n =>
        if n < 65536 then
          (exampleEncodeTokens rest).map (fun t => 6 :: Fin.ofNat (n / 256) :: Fin.ofNat (n % 256) :: t)
        else none
      | none => none
    else none

/-- Parses a text such as `/ip4/10.0.0.1/tcp/80` into its buffer. -/
def exampleStringToBytes (s : GoString) : List Byte × Option GoString :=
  match splitOn 47 s with
  | [] :: tokens =>
    match exampleEncodeTokens tokens with
    | some b => (b, none)
    | none => ([], some (ascii "invalid multiaddr"))
  | _ => ([], some (ascii "invalid multiaddr, must begin with /"))

/-! ## The codec contract

`StringToBytes` and `BytesToString` are declared in a file of the package that
is not among the translated sources. -/

/-- Modelled from the spec: the contract of the codec functions `StringToBytes`
and `BytesToString` at a text `t`.  Spec section 4.2 describes `format` as the
inverse of `parse`: the bytes encoded from an accepted text decode, without
error, to that text. -/
def CodecInverseAt (StringToBytes : GoString → List Byte × Option GoString)
    (BytesToString : List Byte → GoString × Option GoString) (t : GoString) : Prop :=
  ∀ b, StringToBytes t = (b, none) → BytesToString b = (t, none)

/-! ## Walks that start with protocols already collected -/

/-- The outcome of a walk that starts with `acc` already in `ps`, from the
outcome of the same walk started on the empty `ps`. -/
def withCollected (acc : List Protocol) : Outcome ProtocolsResult → Outcome ProtocolsResult
  | .returned ⟨some qs, err⟩ => .returned ⟨some (acc ++ qs), err⟩
  | .returned ⟨none, err⟩ => .returned ⟨none, err⟩
  | .panicked e => .panicked e

/-! ## Slices and backing arrays

The slice expressions of `Encapsulate` (index.go:48-49) on an explicit heap of
backing arrays: a slice value is a window on an array, and `append` writes into
the array of its first argument when the capacity is large enough. -/

/-- A Go slice value: its backing array (by index in the heap), the offset of
its first element in that array, its length and its capacity. -/
structure Slice where
  array : Nat
  off : Nat
  len : Nat
  cap : Nat
  deriving DecidableEq, Repr

/-- The backing arrays allocated so far. -/
abbrev Heap := List (List Byte)

/-- The elements of a slice: `len` bytes of its backing array from `off` on. -/
def Heap.read (h : Heap) (s : Slice) : List Byte :=
  ((h.getD s.array []).drop s.off).take s.len

/-- A slice lies inside an allocated array, and its length within its
capacity. -/
def Heap.WF (h : Heap) (s : Slice) : Prop :=
  s.array < h.length ∧ s.off + s.cap ≤ (h.getD s.array []).length ∧ s.len ≤ s.cap

/-- The built-in `make([]byte, n)`: a new array of `n` zero bytes and the slice
of all of it. -/
def makeBytes (h : Heap) (n : Nat) : Heap × Slice :=
  (h ++ [List.replicate n 0], { array := h.length, off := 0, len := n, cap := n })

/-- The built-in `append(s, x...)` on byte slices.  When `len(s) + len(x)` fits
the capacity of `s`, the elements of `x` are written into the backing array of
`s`, right after its elements, and the result is a longer window on that array;
otherwise a new array receives the elements of `s` followed by those of `x`.
The language leaves the capacity of that new array open: here it is the
length. -/
def appendBytes (h : Heap) (s x : Slice) : Heap × Slice :=
  let xs := h.read x
  if s.len + x.len ≤ s.cap then
    let arr := h.getD s.array []
    (h.set s.array (arr.take (s.off + s.len) ++ xs ++ arr.drop (s.off + s.len + x.len)),
      { array := s.array, off := s.off, len := s.len + x.len, cap := s.cap })
  else
    (h ++ [h.read s ++ xs],
      { array := h.length, off := 0, len := s.len + x.len, cap := s.len + x.len })

/-- The struct `Multiaddr` (index.go:8-10) with its field as a slice value. -/
structure HeapMultiaddr where
  Bytes : Slice
  deriving DecidableEq, Repr

/-- The contents of a `Multiaddr` stored on a heap. -/
def HeapMultiaddr.contents (h : Heap) (m : HeapMultiaddr) : Multiaddr :=
  { Bytes := h.read m.Bytes }

/-- The method `Encapsulate` (index.go:47-51) on the heap: line 48 makes a slice
of `len(m.Bytes)+len(o.Bytes)` bytes and assigns it to `b`, line 49 assigns
`append(m.Bytes, o.Bytes...)` to `b` again, line 50 returns a `Multiaddr` with
that `b`. -/
def HeapMultiaddr.Encapsulate (h : Heap) (m o : HeapMultiaddr) : Heap × HeapMultiaddr :=
  let (h1, _) := makeBytes h (m.Bytes.len + o.Bytes.len)
  let (h2, b) := appendBytes h1 m.Bytes o.Bytes
  (h2, { Bytes := b })

/-! ## The address-type registry (registry.go, package `manet`)

The two package-level maps are made by `init` (registry.go:47-48), which runs
before any function of the package can be called from another package: a
registry state is the contents of two maps.  The functions lock and unlock
`addrParsersLock` around their bodies; in a sequential run that has no effect,
and it is left out.  The types `AddrParser` and `MaddrParser` are function
types; the function values stored in the maps are values of two parameter
types `AP` and `MP`. -/

/-- A Go `map[string]V` that has been made: the value stored under each key, if
there is one. -/
abbrev GoMap (V : Type) := GoString → Option V

/-- The map `make(map[string]V)`. -/
def GoMap.empty {V : Type} : GoMap V :=
  fun _ => none

/-- The assignment `m[k] = v`. -/
def GoMap.insert {V : Type} (m : GoMap V) (k : GoString) (v : V) : GoMap V :=
  fun k1 => if k1 = k then some v else m k1

/-- The struct `AddressSpec` (registry.go:18-34). -/
structure AddressSpec (AP MP : Type) where
  NetNames : List GoString
  Key : GoString
  ParseNetAddr : AP
  ConvertMultiaddr : MP
  Protocol : Protocol

/-- The package-level variables `addrParsers` and `maddrParsers`
(registry.go:14-15). -/
structure Registry (AP MP : Type) where
  addrParsers : GoMap AP
  maddrParsers : GoMap MP

/-- The errors created in registry.go. -/
inductive RegistryError where
  /-- The error of `fmt.Errorf("unknown network %v", net)` (registry.go:100). -/
  | unknownNetwork (net : GoString)
  /-- The error of `fmt.Errorf("network not supported: %s", name)` (registry.go:110). -/
  | networkNotSupported (name : GoString)
  deriving DecidableEq, Repr

/-- The method `Error()` of an error of registry.go: its text. -/
def RegistryError.Error : RegistryError → GoString
  | .unknownNetwork net => ascii "unknown network " ++ net
  | .networkNotSupported name => ascii "network not supported: " ++ name

/-- The function `RegisterAddressType` (registry.go:36-44). -/
def RegisterAddressType {AP MP : Type} (r : Registry AP MP) (a : AddressSpec AP MP) :
    Registry AP MP :=
  { addrParsers := a.NetNames.foldl (fun m n => m.insert n a.ParseNetAddr) r.addrParsers,
    maddrParsers := r.maddrParsers.insert a.Key a.ConvertMultiaddr }

/-- The function `getAddrParser` (registry.go:94-103). -/
def getAddrParser {AP MP : Type} (r : Registry AP MP) (net : GoString) :
    Option AP × Option RegistryError :=
  match r.addrParsers net with
  | none => (none, some (.unknownNetwork net))
  | some parser => (some parser, none)

/-- The function `getMaddrParser` (registry.go:105-114). -/
def getMaddrParser {AP MP : Type} (r : Registry AP MP) (name : GoString) :
    Option MP × Option RegistryError :=
  match r.maddrParsers name with
  | none => (none, some (.networkNotSupported name))
  | some p => (some p, none)

/-- The converter functions that registry.go refers to and other files of the
package declare. -/
structure Converters (AP MP : Type) where
  parseTcpNetAddr : AP
  parseUdpNetAddr : AP
  parseUtpNetAddr : AP
  parseIpNetAddr : AP
  parseIpPlusNetAddr : AP
  parseBasicNetMaddr : MP

/-- The zero value of the struct `Protocol`, the value of a field that a
composite literal leaves out. -/
def zeroProtocol : Protocol :=
  { Code := 0, Size := 0, Name := [] }

/-- The variable `tcpAddrSpec` (registry.go:59-64). -/
def tcpAddrSpec {AP MP : Type} (c : Converters AP MP) : AddressSpec AP MP :=
  { Key := ascii "tcp",
    NetNames := [ascii "tcp", ascii "tcp4", ascii "tcp6"],
    ParseNetAddr := c.parseTcpNetAddr,
    ConvertMultiaddr := c.parseBasicNetMaddr,
    Protocol := zeroProtocol }

/-- The variable `udpAddrSpec` (registry.go:66-71). -/
def udpAddrSpec {AP MP : Type} (c : Converters AP MP) : AddressSpec AP MP :=
  { Key := ascii "udp",
    NetNames := [ascii "udp", ascii "udp4", ascii "udp6"],
    ParseNetAddr := c.parseUdpNetAddr,
    ConvertMultiaddr := c.parseBasicNetMaddr,
    Protocol := zeroProtocol }

/-- The variable `utpAddrSpec` (registry.go:73-78). -/
def utpAddrSpec {AP MP : Type} (c : Converters AP MP) : AddressSpec AP MP :=
  { Key := ascii "utp",
    NetNames := [ascii "utp", ascii "utp4", ascii "utp6"],
    ParseNetAddr := c.parseUtpNetAddr,
    ConvertMultiaddr := c.parseBasicNetMaddr,
    Protocol := zeroProtocol }

/-- The variable `ip4AddrSpec` (registry.go:80-85). -/
def ip4AddrSpec {AP MP : Type} (c : Converters AP MP) : AddressSpec AP MP :=
  { Key := ascii "ip4",
    NetNames := [ascii "ip4"],
    ParseNetAddr := c.parseIpNetAddr,
    ConvertMultiaddr := c.parseBasicNetMaddr,
    Protocol := zeroProtocol }

/-- The variable `ip6AddrSpec` (registry.go:87-92). -/
def ip6AddrSpec {AP MP : Type} (c : Converters AP MP) : AddressSpec AP MP :=
  { Key := ascii "ip6",
    NetNames := [ascii "ip6"],
    ParseNetAddr := c.parseIpNetAddr,
    ConvertMultiaddr := c.parseBasicNetMaddr,
    Protocol := zeroProtocol }

/-- The function `init` (registry.go:46-57): the state of the registry once the
package is initialised. -/
def init {AP MP : Type} (c : Converters AP MP) : Registry AP MP :=
  let r0 : Registry AP MP := { addrParsers := GoMap.empty, maddrParsers := GoMap.empty }
  let r1 := RegisterAddressType r0 (tcpAddrSpec c)
  let r2 := RegisterAddressType r1 (udpAddrSpec c)
  let r3 := RegisterAddressType r2 (utpAddrSpec c)
  let r4 := RegisterAddressType r3 (ip4AddrSpec c)
  let r5 := RegisterAddressType r4 (ip6AddrSpec c)
  { addrParsers := r5.addrParsers.insert (ascii "ip+net") c.parseIpPlusNetAddr,
    maddrParsers := r5.maddrParsers }

/-- The registry in which only the `tcp` spec has been registered. -/
def tcpOnlyRegistry {AP MP : Type} (c : Converters AP MP) : Registry AP MP :=
  RegisterAddressType { addrParsers := GoMap.empty, maddrParsers := GoMap.empty } (tcpAddrSpec c)

/-- An example of converter functions, each stood for by its name. -/
def exampleConverters : Converters GoString GoString :=
  { parseTcpNetAddr := ascii "parseTcpNetAddr",
    parseUdpNetAddr := ascii "parseUdpNetAddr",
    parseUtpNetAddr := ascii "parseUtpNetAddr",
    parseIpNetAddr := ascii "parseIpNetAddr",
    parseIpPlusNetAddr := ascii "parseIpPlusNetAddr",
    parseBasicNetMaddr := ascii "parseBasicNetMaddr" }

/-! ## Example heap

A `Multiaddr` whose slice has spare capacity, as `append` leaves them, and two
others. -/

/-- Three backing arrays: `/tcp/80` in an array of 8 bytes, `/tcp/81` and
`/tcp/82` in arrays of 3 bytes. -/
def exampleHeap : Heap :=
  [[6, 0, 80, 0, 0, 0, 0, 0], [6, 0, 81], [6, 0, 82]]

/-- The Multiaddr `/tcp/80`: length 3, capacity 8. -/
def exampleHeapA : HeapMultiaddr :=
  { Bytes := { array := 0, off := 0, len := 3, cap := 8 } }

/-- The Multiaddr `/tcp/81`: length 3, capacity 3. -/
def exampleHeapB : HeapMultiaddr :=
  { Bytes := { array := 1, off := 0, len := 3, cap := 3 } }

/-- The Multiaddr `/tcp/82`: length 3, capacity 3. -/
def exampleHeapC : HeapMultiaddr :=
  { Bytes := { array := 2, off := 0, len := 3, cap := 3 } }

/-! ## Sequences of calls of `Encapsulate` on the heap -/

/-- The expression `a.Encapsulate(b).Encapsulate(c)`: the inner call first, then
the outer call on its result, on the heap the inner call left. -/
def encapsulateLeftGrouping (h : Heap) (a b c : HeapMultiaddr) : Heap × HeapMultiaddr :=
  let (h1, r1) := a.Encapsulate h b
  r1.Encapsulate h1 c

/-- The expression `a.Encapsulate(b.Encapsulate(c))`: the inner call first, then
the outer call with its result as argument, on the heap the inner call left. -/
def encapsulateRightGrouping (h : Heap) (a b c : HeapMultiaddr) : Heap × HeapMultiaddr :=
  let (h1, r1) := b.Encapsulate h c
  a.Encapsulate h1 r1

/-- The statements `r1 := a.Encapsulate(b); r2 := b.Encapsulate(a)`: the heap
after both calls, `r1` and `r2`. -/
def encapsulateBothOrders (h : Heap) (a b : HeapMultiaddr) :
    Heap × HeapMultiaddr × HeapMultiaddr :=
  let (h1, r1) := a.Encapsulate h b
  let (h2, r2) := b.Encapsulate h1 a
  (h2, r1, r2)

/-- The state after `c := a.Encapsulate(x)` on the example heap, with `a` the
Multiaddr `/tcp/80` of capacity 8 and `x` the Multiaddr `/tcp/82`: the heap,
and `c`. -/
def exampleComposite : Heap × HeapMultiaddr :=
  exampleHeapA.Encapsulate exampleHeap exampleHeapC

/-- Two backing arrays without spare capacity: `/ip4/10.0.0.1` and `/tcp/80`. -/
def exampleHeapIpTcp : Heap :=
  [[4, 10, 0, 0, 1], [6, 0, 80]]

/-- The Multiaddr `/ip4/10.0.0.1`: length 5, capacity 5. -/
def exampleHeapIp : HeapMultiaddr :=
  { Bytes := { array := 0, off := 0, len := 5, cap := 5 } }

/-- The Multiaddr `/tcp/80`: length 3, capacity 3. -/
def exampleHeapTcp : HeapMultiaddr :=
  { Bytes := { array := 1, off := 0, len := 3, cap := 3 } }

/-- Three backing arrays: `/tcp/80` in an array of 16 bytes, `/tcp/81` and
`/tcp/81/tcp/80` in arrays of their length. -/
def exampleHeapWide : Heap :=
  [[6, 0, 80, 0, 0, 0, 0, 0, 0, 0, 0, 0, 0, 0, 0, 0], [6, 0, 81], [6, 0, 81, 6, 0, 80]]

/-- The Multiaddr `/tcp/80`: length 3, capacity 16. -/
def exampleWideA : HeapMultiaddr :=
  { Bytes := { array := 0, off := 0, len := 3, cap := 16 } }

/-- The Multiaddr `/tcp/81`: length 3, capacity 3. -/
def exampleWideX : HeapMultiaddr :=
  { Bytes := { array := 1, off := 0, len := 3, cap := 3 } }

/-- The Multiaddr `/tcp/81/tcp/80`: length 6, capacity 6. -/
def exampleWideY : HeapMultiaddr :=
  { Bytes := { array := 2, off := 0, len := 6, cap := 6 } }

/-- The state after `b := a.Encapsulate(x)` on the wide heap: the heap, and the
Multiaddr `/tcp/80/tcp/81`, stored in the array of `a`. -/
def exampleWideAX : Heap × HeapMultiaddr :=
  exampleWideA.Encapsulate exampleHeapWide exampleWideX

/-- The state after `b := a.Encapsulate(y)` on the wide heap: the heap, and the
Multiaddr `/tcp/80/tcp/81/tcp/80`, stored in the array of `a`. -/
def exampleWideAY : Heap × HeapMultiaddr :=
  exampleWideA.Encapsulate exampleHeapWide exampleWideY

/-! ## Lemmas on the loop of `Protocols` -/

theorem ProtocolsLoopBody_next {PWC : Int → Option Protocol} {ps ps1 : List Protocol}
    {b b1 : List Byte} (h : ProtocolsLoopBody PWC ps b = .next ps1 b1) :
    ∃ b0 rest p, b = b0 :: rest ∧ PWC (b0.val : Int) = some p ∧ 0 ≤ segmentWidth p ∧
      segmentWidth p ≤ (b.length : Int) ∧ ps1 = ps ++ [p] ∧
      b1 = b.drop (segmentWidth p).toNat := by
  cases b with
  | nil => simp [ProtocolsLoopBody] at h
  | cons b0 rest =>
    cases hp : PWC (b0.val : Int) with
    | none => simp [ProtocolsLoopBody, hp] at h
    | some p =>
      simp only [ProtocolsLoopBody, hp] at h
      split at h
      · rename_i hlow
        simp only [LoopStep.next.injEq] at h
        exact ⟨b0, rest, p, rfl, hp, hlow.1, hlow.2, h.1.symm, h.2.symm⟩
      · simp at h

theorem ProtocolsLoopBody_of_resolves {PWC : Int → Option Protocol} (ps : List Protocol)
    {b0 : Byte} (rest : List Byte) {p : Protocol} (hp : PWC (b0.val : Int) = some p)
    (h0 : 0 ≤ segmentWidth p) (h1 : segmentWidth p ≤ ((b0 :: rest).length : Int)) :
    ProtocolsLoopBody PWC ps (b0 :: rest)
      = .next (ps ++ [p]) ((b0 :: rest).drop (segmentWidth p).toNat) := by
  simp only [ProtocolsLoopBody, hp]
  rw [if_pos ⟨h0, h1⟩]

theorem widthSum_append_singleton (ps : List Protocol) (p : Protocol) :
    widthSum (ps ++ [p]) = widthSum ps + segmentWidth p := by
  simp [widthSum]

/-- Loop invariant: the widths of the protocols collected so far plus the bytes
still to read do not change along a walk that returns a list. -/
theorem ProtocolsLoop_widthSum (PWC : Int → Option Protocol) :
    ∀ (fuel : Nat) (ps : List Protocol) (b : List Byte) (qs : List Protocol),
      ProtocolsLoop PWC fuel ps b = some (.returned ⟨some qs, none⟩) →
      widthSum qs = widthSum ps + (b.length : Int) := by
  intro fuel
  induction fuel with
  | zero => intro ps b qs h; simp [ProtocolsLoop] at h
  | succ n ih =>
    intro ps b qs h
    simp only [ProtocolsLoop] at h
    cases hb : ProtocolsLoopBody PWC ps b with
    | exit o =>
      rw [hb] at h
      simp only [Option.some.injEq] at h
      subst h
      cases b with
      | nil =>
        simp only [ProtocolsLoopBody, LoopStep.exit.injEq, Outcome.returned.injEq,
          ProtocolsResult.mk.injEq, Option.some.injEq, and_true] at hb
        simp [hb]
      | cons b0 rest =>
        cases hp : PWC (b0.val : Int) with
        | none => simp [ProtocolsLoopBody, hp] at hb
        | some p =>
          simp only [ProtocolsLoopBody, hp] at hb
          split at hb <;> simp at hb
    | next ps1 b1 =>
      rw [hb] at h
      obtain ⟨b0, rest, p, rfl, -, h0, h1, rfl, rfl⟩ := ProtocolsLoopBody_next hb
      have := ih _ _ _ h
      rw [this, widthSum_append_singleton, List.length_drop]
      omega

/-- Fuel left over does not change the outcome of the loop. -/
theorem ProtocolsLoop_mono (PWC : Int → Option Protocol) :
    ∀ (fuel : Nat) (ps : List Protocol) (b : List Byte) (o : Outcome ProtocolsResult),
      ProtocolsLoop PWC fuel ps b = some o →
      ∀ k, ProtocolsLoop PWC (fuel + k) ps b = some o := by
  intro fuel
  induction fuel with
  | zero => intro ps b o h; simp [ProtocolsLoop] at h
  | succ n ih =>
    intro ps b o h k
    rw [Nat.add_right_comm]
    simp only [ProtocolsLoop] at h ⊢
    cases hb : ProtocolsLoopBody PWC ps b with
    | exit o1 => rw [hb] at h; simpa using h
    | next ps1 b1 => rw [hb] at h; exact ih _ _ _ h k

/-- A walk that reaches a state continues from that state: the iterations made
on the way cost a fixed amount of fuel. -/
theorem ProtocolsLoop_of_reaches {PWC : Int → Option Protocol}
    {ps ps1 : List Protocol} {b b1 : List Byte} (h : WalkReaches PWC ps b ps1 b1) :
    ∃ n, ∀ fuel, ProtocolsLoop PWC (n + fuel) ps b = ProtocolsLoop PWC fuel ps1 b1 := by
  induction h with
  | here ps b => exact ⟨0, fun fuel => by simp⟩
  | step hb _ ih =>
    obtain ⟨n, hn⟩ := ih
    refine ⟨n + 1, fun fuel => ?_⟩
    rw [show n + 1 + fuel = (n + fuel) + 1 by omega]
    simp only [ProtocolsLoop, hb]
    exact hn fuel

/-- A walk that reaches a state where the loop body leaves the function ends
with that outcome, whatever fuel is left over. -/
theorem ProtocolsLoop_exit_of_reaches {PWC : Int → Option Protocol}
    {ps1 : List Protocol} {b b1 : List Byte} {o : Outcome ProtocolsResult}
    (h : WalkReaches PWC [] b ps1 b1) (hexit : ProtocolsLoopBody PWC ps1 b1 = .exit o) :
    ∃ n, ∀ fuel, n ≤ fuel → ProtocolsLoop PWC fuel [] b = some o := by
  obtain ⟨n, hn⟩ := ProtocolsLoop_of_reaches h
  refine ⟨n + 1, fun fuel hfuel => ?_⟩
  obtain ⟨k, rfl⟩ := Nat.exists_eq_add_of_le hfuel
  rw [show n + 1 + k = n + (k + 1) by omega, hn]
  simp [ProtocolsLoop, hexit]

/-- A result handed back by the loop is either a list without error or an
error without list. -/
theorem ProtocolsLoop_returned_shape (PWC : Int → Option Protocol) :
    ∀ (fuel : Nat) (ps : List Protocol) (b : List Byte) (r : ProtocolsResult),
      ProtocolsLoop PWC fuel ps b = some (.returned r) →
      (∃ qs, r = ⟨some qs, none⟩) ∨ (∃ e, r = ⟨none, some e⟩) := by
  intro fuel
  induction fuel with
  | zero => intro ps b r h; simp [ProtocolsLoop] at h
  | succ n ih =>
    intro ps b r h
    simp only [ProtocolsLoop] at h
    cases hb : ProtocolsLoopBody PWC ps b with
    | next ps1 b1 => rw [hb] at h; exact ih _ _ _ h
    | exit o =>
      rw [hb] at h
      simp only [Option.some.injEq] at h
      subst h
      cases b with
      | nil =>
        simp only [ProtocolsLoopBody, LoopStep.exit.injEq, Outcome.returned.injEq] at hb
        exact Or.inl ⟨ps, hb.symm⟩
      | cons b0 rest =>
        cases hp : PWC (b0.val : Int) with
        | none =>
          simp only [ProtocolsLoopBody, hp, LoopStep.exit.injEq, Outcome.returned.injEq] at hb
          exact Or.inr ⟨_, hb.symm⟩
        | some p =>
          simp only [ProtocolsLoopBody, hp] at hb
          split at hb <;> simp at hb

theorem segmentWidth_pos_of_size_nonneg {p : Protocol} (h : 0 ≤ p.Size) :
    1 ≤ segmentWidth p := by
  unfold segmentWidth
  have : 0 ≤ p.Size.tdiv 8 := Int.tdiv_nonneg h (by decide)
  omega

/-- With non-negative sizes, fuel above the number of bytes to read is enough
for the loop to end. -/
theorem ProtocolsLoop_total (PWC : Int → Option Protocol)
    (hsize : ∀ c p, PWC c = some p → 0 ≤ p.Size) :
    ∀ (fuel : Nat) (ps : List Protocol) (b : List Byte), b.length < fuel →
      ∃ o, ProtocolsLoop PWC fuel ps b = some o := by
  intro fuel
  induction fuel with
  | zero => intro ps b h; omega
  | succ n ih =>
    intro ps b h
    simp only [ProtocolsLoop]
    cases hb : ProtocolsLoopBody PWC ps b with
    | exit o => exact ⟨o, rfl⟩
    | next ps1 b1 =>
      obtain ⟨b0, rest, p, rfl, hp, h0, h1, rfl, rfl⟩ := ProtocolsLoopBody_next hb
      have hw := segmentWidth_pos_of_size_nonneg (hsize _ _ hp)
      apply ih
      rw [List.length_drop]
      omega

/-- The loop on a well-formed buffer collects the protocols of its segments. -/
theorem ProtocolsLoop_encodeSegments (PWC : Int → Option Protocol)
    {segs : List (Byte × List Byte)} {ps : List Protocol}
    (hwf : List.Forall₂ (fun s p => PWC (s.1.val : Int) = some p ∧ 0 ≤ p.Size ∧
      (s.2.length : Int) = p.Size.tdiv 8) segs ps) :
    ∀ (acc : List Protocol) (k : Nat),
      ProtocolsLoop PWC (segs.length + 1 + k) acc (encodeSegments segs)
        = some (.returned ⟨some (acc ++ ps), none⟩) := by
  induction hwf with
  | nil =>
    intro acc k
    rw [show ([] : List (Byte × List Byte)).length + 1 + k = k + 1 by simp; omega]
    simp [ProtocolsLoop, ProtocolsLoopBody, encodeSegments]
  | @cons s p segs ps hsp _ ih =>
    intro acc k
    obtain ⟨c, v⟩ := s
    obtain ⟨hp, -, hlen⟩ := hsp
    simp only at hp hlen
    have hw : segmentWidth p = ((1 + v.length : Nat) : Int) := by
      unfold segmentWidth; omega
    have hbody := ProtocolsLoopBody_of_resolves acc (v ++ encodeSegments segs) hp
      (by rw [hw]; exact Int.natCast_nonneg _)
      (by rw [hw]; simp only [List.length_cons, List.length_append]; omega)
    have hdrop : (c :: (v ++ encodeSegments segs)).drop (segmentWidth p).toNat
        = encodeSegments segs := by
      rw [hw, Int.toNat_natCast, Nat.add_comm]
      simp
    rw [hdrop] at hbody
    simp only [List.length_cons]
    rw [show segs.length + 1 + 1 + k = (segs.length + 1 + k) + 1 by omega]
    simp only [encodeSegments, ProtocolsLoop, hbody]
    rw [ih (acc ++ [p]) k]
    simp

theorem Protocols_of_loop_returned {PWC : Int → Option Protocol} {fuel : Nat}
    {m : Multiaddr} {r : ProtocolsResult}
    (h : ProtocolsLoop PWC fuel [] m.Bytes = some (.returned r)) :
    m.Protocols PWC fuel = some r := by
  simp [Multiaddr.Protocols, h]

theorem Protocols_of_loop_panicked {PWC : Int → Option Protocol} {fuel : Nat}
    {m : Multiaddr} {e : RuntimeError}
    (h : ProtocolsLoop PWC fuel [] m.Bytes = some (.panicked e)) :
    m.Protocols PWC fuel = some ⟨none, some (.runtime e)⟩ := by
  simp [Multiaddr.Protocols, h]

theorem exampleProtocolWithCode_size_nonneg :
    ∀ c p, exampleProtocolWithCode c = some p → 0 ≤ p.Size := by
  intro c p h
  unfold exampleProtocolWithCode at h
  split_ifs at h <;> simp at h <;> subst h <;> decide

/-! ## Claims on `Encapsulate` and `Protocols` -/

/-- C1: for every pair of Multiaddrs, whatever their bytes, `m.Encapsulate(o)`
is defined and its bytes are the bytes of `m` followed by the bytes of `o`; its
length is `len(m.Bytes) + len(o.Bytes)`. -/
theorem Encapsulate_bytes_concat (m o : Multiaddr) :
    (m.Encapsulate o).Bytes = m.Bytes ++ o.Bytes ∧
      (m.Encapsulate o).Bytes.length = m.Bytes.length + o.Bytes.length := by
  simp [Multiaddr.Encapsulate]

/-- C2: for every buffer and every protocol table, when `Protocols` returns a
list `ps` without error, the sum over `ps` of `1 + p.Size/8` is `len(m.Bytes)`. -/
theorem Protocols_widths_sum_to_length (PWC : Int → Option Protocol) (fuel : Nat)
    (m : Multiaddr) (ps : List Protocol)
    (h : m.Protocols PWC fuel = some ⟨some ps, none⟩) :
    (ps.map (fun p => 1 + p.Size.tdiv 8)).sum = (m.Bytes.length : Int) := by
  have hloop : ProtocolsLoop PWC fuel [] m.Bytes = some (.returned ⟨some ps, none⟩) := by
    unfold Multiaddr.Protocols at h
    cases hl : ProtocolsLoop PWC fuel [] m.Bytes with
    | none => rw [hl] at h; simp at h
    | some o =>
      rw [hl] at h
      cases o with
      | returned r => simp only [Option.some.injEq] at h; rw [h]
      | panicked e => simp at h
  have := ProtocolsLoop_widthSum PWC fuel [] m.Bytes ps hloop
  have hfun : (fun p : Protocol => 1 + p.Size.tdiv 8) = segmentWidth := rfl
  rw [hfun]
  simpa [widthSum] using this

/-- Witness of C2 on the buffer of `/ip4/127.0.0.1/tcp/4001`. -/
theorem Protocols_widths_sum_to_length_witness :
    exampleAddr.Protocols exampleProtocolWithCode 3
        = some ⟨some [⟨4, 32, ascii "ip4"⟩, ⟨6, 16, ascii "tcp"⟩], none⟩ ∧
      (([⟨4, 32, ascii "ip4"⟩, ⟨6, 16, ascii "tcp"⟩] : List Protocol).map
        (fun p => 1 + p.Size.tdiv 8)).sum = (exampleAddr.Bytes.length : Int) :=
  ⟨by decide, Protocols_widths_sum_to_length exampleProtocolWithCode 3 exampleAddr _ (by decide)⟩

/-- C3: when the walk of `Protocols` reaches a segment whose code resolves to a
protocol `p` with `1 + p.Size/8` greater than the number of bytes remaining,
`Protocols` returns to its caller, with a nil list and the recovered
slice-bounds panic as its non-nil error. -/
theorem Protocols_truncated_value_is_error (PWC : Int → Option Protocol) (m : Multiaddr)
    (ps : List Protocol) (b0 : Byte) (rest : List Byte) (p : Protocol)
    (hreach : WalkReaches PWC [] m.Bytes ps (b0 :: rest))
    (hp : PWC (b0.val : Int) = some p)
    (htrunc : ((b0 :: rest).length : Int) < 1 + p.Size.tdiv 8) :
    ∃ n, ∀ fuel, n ≤ fuel →
      m.Protocols PWC fuel
        = some ⟨none, some (.runtime (.sliceBounds (1 + p.Size.tdiv 8) (b0 :: rest).length))⟩ := by
  have hexit : ProtocolsLoopBody PWC ps (b0 :: rest)
      = .exit (.panicked (.sliceBounds (1 + p.Size.tdiv 8) (b0 :: rest).length)) := by
    simp only [ProtocolsLoopBody, hp, segmentWidth]
    rw [if_neg]
    intro hlow
    omega
  obtain ⟨n, hn⟩ := ProtocolsLoop_exit_of_reaches hreach hexit
  exact ⟨n, fun fuel hfuel => Protocols_of_loop_panicked (hn fuel hfuel)⟩

/-- Witness of C3: the buffer of `/ip4/127.0.0.1/tcp/4001` without its last
byte; the walk reaches the `tcp` segment with two bytes left and a width of 3. -/
theorem Protocols_truncated_value_is_error_witness :
    Multiaddr.Protocols exampleProtocolWithCode 2 ⟨[4, 127, 0, 0, 1, 6, 15]⟩
        = some ⟨none, some (.runtime (.sliceBounds 3 2))⟩ ∧
      ∃ n, ∀ fuel, n ≤ fuel →
        Multiaddr.Protocols exampleProtocolWithCode fuel ⟨[4, 127, 0, 0, 1, 6, 15]⟩
          = some ⟨none, some (.runtime (.sliceBounds 3 2))⟩ :=
  ⟨by decide,
   Protocols_truncated_value_is_error exampleProtocolWithCode ⟨[4, 127, 0, 0, 1, 6, 15]⟩
    [⟨4, 32, ascii "ip4"⟩] 6 [15] ⟨6, 16, ascii "tcp"⟩
    (WalkReaches.step (by decide) (WalkReaches.here _ _)) (by decide) (by decide)⟩

/-- C4: when the walk of `Protocols` reaches a segment-start byte `c` for which
`ProtocolWithCode(c)` finds no protocol, `Protocols` returns a nil list and the
error whose text is `no protocol with code <c>`, whatever the segments resolved
before. -/
theorem Protocols_unknown_code_is_error (PWC : Int → Option Protocol) (m : Multiaddr)
    (ps : List Protocol) (c : Byte) (rest : List Byte)
    (hreach : WalkReaches PWC [] m.Bytes ps (c :: rest))
    (hnone : PWC (c.val : Int) = none) :
    (∃ n, ∀ fuel, n ≤ fuel →
      m.Protocols PWC fuel = some ⟨none, some (.noProtocolWithCode c)⟩) ∧
    (GoError.noProtocolWithCode c).Error
      = ascii "no protocol with code " ++ ascii (Nat.repr c.val) := by
  refine ⟨?_, rfl⟩
  have hexit : ProtocolsLoopBody PWC ps (c :: rest)
      = .exit (.returned ⟨none, some (.noProtocolWithCode c)⟩) := by
    simp only [ProtocolsLoopBody, hnone]
  obtain ⟨n, hn⟩ := ProtocolsLoop_exit_of_reaches hreach hexit
  exact ⟨n, fun fuel hfuel => Protocols_of_loop_returned (hn fuel hfuel)⟩

/-- Witness of C4: an `ip4` segment followed by the code 7, which the example
table does not know. -/
theorem Protocols_unknown_code_is_error_witness :
    (Multiaddr.Protocols exampleProtocolWithCode 2 ⟨[4, 127, 0, 0, 1, 7, 15]⟩
        = some ⟨none, some (.noProtocolWithCode 7)⟩ ∧
      (GoError.noProtocolWithCode 7).Error = ascii "no protocol with code 7") ∧
    ((∃ n, ∀ fuel, n ≤ fuel →
        Multiaddr.Protocols exampleProtocolWithCode fuel ⟨[4, 127, 0, 0, 1, 7, 15]⟩
          = some ⟨none, some (.noProtocolWithCode 7)⟩) ∧
      (GoError.noProtocolWithCode 7).Error
        = ascii "no protocol with code " ++ ascii (Nat.repr (7 : Byte).val)) :=
  ⟨⟨by decide, by decide⟩,
   Protocols_unknown_code_is_error exampleProtocolWithCode ⟨[4, 127, 0, 0, 1, 7, 15]⟩
    [⟨4, 32, ascii "ip4"⟩] 7 [15]
    (WalkReaches.step (by decide) (WalkReaches.here _ _)) (by decide)⟩

/-- C5: on a well-formed buffer, the concatenation of segments `[code_i][v_i]`
where each `code_i` resolves to `p_i` with non-negative size and
`len(v_i) = p_i.Size/8`, `Protocols` returns without error the list
`[p_1, ..., p_n]` in buffer order, as soon as the fuel covers the `n + 1`
evaluations of the loop condition; the empty buffer gives the empty list. -/
theorem Protocols_wellformed_buffer (PWC : Int → Option Protocol)
    (segs : List (Byte × List Byte)) (ps : List Protocol)
    (hwf : List.Forall₂ (fun s p => PWC (s.1.val : Int) = some p ∧ 0 ≤ p.Size ∧
      (s.2.length : Int) = p.Size.tdiv 8) segs ps)
    (fuel : Nat) (hfuel : segs.length < fuel) :
    Multiaddr.Protocols PWC fuel ⟨encodeSegments segs⟩ = some ⟨some ps, none⟩ := by
  obtain ⟨k, rfl⟩ := Nat.exists_eq_add_of_le (Nat.succ_le_of_lt hfuel)
  have h := ProtocolsLoop_encodeSegments PWC hwf [] k
  rw [List.nil_append] at h
  exact Protocols_of_loop_returned h

/-- Witness of C5: the bytes of `/ip4/127.0.0.1/tcp/4001` give `[ip4, tcp]`. -/
theorem Protocols_wellformed_buffer_witness :
    encodeSegments [(4, [127, 0, 0, 1]), (6, [15, 161])] = exampleAddr.Bytes ∧
      Multiaddr.Protocols exampleProtocolWithCode 3
          ⟨encodeSegments [(4, [127, 0, 0, 1]), (6, [15, 161])]⟩
        = some ⟨some [⟨4, 32, ascii "ip4"⟩, ⟨6, 16, ascii "tcp"⟩], none⟩ :=
  ⟨by decide,
   Protocols_wellformed_buffer exampleProtocolWithCode
    [(4, [127, 0, 0, 1]), (6, [15, 161])] [⟨4, 32, ascii "ip4"⟩, ⟨6, 16, ascii "tcp"⟩]
    (List.Forall₂.cons ⟨by decide, by decide, by decide⟩
      (List.Forall₂.cons ⟨by decide, by decide, by decide⟩ List.Forall₂.nil))
    3 (by decide)⟩

/-- C6: whenever `Protocols` returns a non-nil error, the list it returns is
nil. -/
theorem Protocols_error_returns_nil_list (PWC : Int → Option Protocol) (fuel : Nat)
    (m : Multiaddr) (r : ProtocolsResult)
    (h : m.Protocols PWC fuel = some r) (herr : r.err ≠ none) :
    r.ret = none := by
  unfold Multiaddr.Protocols at h
  cases hl : ProtocolsLoop PWC fuel [] m.Bytes with
  | none => rw [hl] at h; simp at h
  | some o =>
    rw [hl] at h
    cases o with
    | panicked e => simp only [Option.some.injEq] at h; subst h; rfl
    | returned r1 =>
      simp only [Option.some.injEq] at h
      subst h
      rcases ProtocolsLoop_returned_shape PWC fuel [] m.Bytes r1 hl with ⟨qs, rfl⟩ | ⟨e, rfl⟩
      · exact absurd rfl herr
      · rfl

/-- Witness of C6: the `ip4` protocol resolved before the unknown code 7 is not
handed back. -/
theorem Protocols_error_returns_nil_list_witness :
    Multiaddr.Protocols exampleProtocolWithCode 2 ⟨[4, 127, 0, 0, 1, 7, 15]⟩
        = some ⟨none, some (.noProtocolWithCode 7)⟩ ∧
      (ProtocolsResult.mk none (some (.noProtocolWithCode 7))).ret = none :=
  ⟨by decide,
   Protocols_error_returns_nil_list exampleProtocolWithCode 2 ⟨[4, 127, 0, 0, 1, 7, 15]⟩
    ⟨none, some (.noProtocolWithCode 7)⟩ (by decide) (by decide)⟩

/-- C7: with a protocol table whose sizes are non-negative, every iteration of
the loop that goes on shortens the remaining buffer by `1 + p.Size/8 ≥ 1` bytes,
and `Protocols` returns a result `r` as soon as the fuel exceeds `len(m.Bytes)`:
at most `len(m.Bytes)` iterations and the evaluation of the loop condition that
ends the walk. -/
theorem Protocols_terminates (PWC : Int → Option Protocol)
    (hsize : ∀ c p, PWC c = some p → 0 ≤ p.Size) (m : Multiaddr) :
    (∀ ps b ps1 b1, ProtocolsLoopBody PWC ps b = .next ps1 b1 →
      ∃ p, ps1 = ps ++ [p] ∧ 1 ≤ 1 + p.Size.tdiv 8 ∧
        (b1.length : Int) = (b.length : Int) - (1 + p.Size.tdiv 8) ∧
        b1.length < b.length) ∧
    ∃ r, ∀ fuel, m.Bytes.length < fuel → m.Protocols PWC fuel = some r := by
  constructor
  · intro ps b ps1 b1 hb
    obtain ⟨b0, rest, p, rfl, hp, h0, h1, rfl, rfl⟩ := ProtocolsLoopBody_next hb
    have hw := segmentWidth_pos_of_size_nonneg (hsize _ _ hp)
    refine ⟨p, rfl, hw, ?_, ?_⟩
    · rw [List.length_drop]; unfold segmentWidth at *; omega
    · rw [List.length_drop]; omega
  · obtain ⟨o, ho⟩ := ProtocolsLoop_total PWC hsize (m.Bytes.length + 1) [] m.Bytes
      (Nat.lt_succ_self _)
    have hall : ∀ fuel, m.Bytes.length < fuel → ProtocolsLoop PWC fuel [] m.Bytes = some o := by
      intro fuel hfuel
      obtain ⟨k, rfl⟩ := Nat.exists_eq_add_of_le (Nat.succ_le_of_lt hfuel)
      exact ProtocolsLoop_mono PWC _ _ _ _ ho k
    cases o with
    | returned r => exact ⟨r, fun fuel hfuel => Protocols_of_loop_returned (hall fuel hfuel)⟩
    | panicked e => exact ⟨_, fun fuel hfuel => Protocols_of_loop_panicked (hall fuel hfuel)⟩

/-- Witness of C7 on the example table and the buffer of
`/ip4/127.0.0.1/tcp/4001`. -/
theorem Protocols_terminates_witness :
    (∀ ps b ps1 b1, ProtocolsLoopBody exampleProtocolWithCode ps b = .next ps1 b1 →
      ∃ p, ps1 = ps ++ [p] ∧ 1 ≤ 1 + p.Size.tdiv 8 ∧
        (b1.length : Int) = (b.length : Int) - (1 + p.Size.tdiv 8) ∧
        b1.length < b.length) ∧
    ∃ r, ∀ fuel, exampleAddr.Bytes.length < fuel →
      exampleAddr.Protocols exampleProtocolWithCode fuel = some r :=
  Protocols_terminates exampleProtocolWithCode exampleProtocolWithCode_size_nonneg exampleAddr

/-! ## Lemmas on `strings.LastIndex` -/

theorem occursAt_iff_prefix_drop (substr s : GoString) (i : Nat) :
    OccursAt substr s i ↔ i ≤ s.length ∧ substr <+: s.drop i := by
  unfold OccursAt
  constructor
  · rintro ⟨hlen, htake⟩
    refine ⟨by omega, ?_⟩
    rw [List.prefix_iff_eq_take]
    exact htake.symm
  · rintro ⟨hi, hpre⟩
    have hle := hpre.length_le
    rw [List.length_drop] at hle
    refine ⟨by omega, ?_⟩
    rw [List.prefix_iff_eq_take] at hpre
    exact hpre.symm

theorem lastIndexFrom_spec (substr : GoString) :
    ∀ (t : GoString) (i : Nat),
      (lastIndexFrom substr t i = -1 ∧ ∀ k, k ≤ t.length → ¬ substr <+: t.drop k) ∨
      (∃ k, k ≤ t.length ∧ lastIndexFrom substr t i = ((i + k : Nat) : Int) ∧
        substr <+: t.drop k ∧ ∀ j, k < j → j ≤ t.length → ¬ substr <+: t.drop j) := by
  intro t
  induction t with
  | nil =>
    intro i
    by_cases hs : substr = []
    · right
      refine ⟨0, le_refl _, ?_, ?_, ?_⟩
      · simp [lastIndexFrom, hs]
      · simp [hs]
      · intro j hj hj0
        simp at hj0
        omega
    · left
      refine ⟨by simp [lastIndexFrom, hs], ?_⟩
      intro k _ hpre
      simp at hpre
      exact hs hpre
  | cons c t ih =>
    intro i
    rcases ih (i + 1) with ⟨hr, hno⟩ | ⟨k, hk, hr, hpre, hlast⟩
    · by_cases hpre : substr <+: c :: t
      · right
        refine ⟨0, Nat.zero_le _, ?_, by simpa using hpre, ?_⟩
        · simp [lastIndexFrom, hr, hpre]
        · intro j hj hjl
          obtain ⟨j1, rfl⟩ := Nat.exists_eq_succ_of_ne_zero (Nat.pos_iff_ne_zero.mp hj)
          simp only [List.drop_succ_cons]
          exact hno j1 (by simpa using hjl)
      · left
        refine ⟨by simp [lastIndexFrom, hr, hpre], ?_⟩
        intro k hk
        cases k with
        | zero => simpa using hpre
        | succ k1 =>
          simp only [List.drop_succ_cons]
          exact hno k1 (by simpa using hk)
    · right
      refine ⟨k + 1, by simpa using hk, ?_, by simpa using hpre, ?_⟩
      · have h0 : (0 : Int) ≤ lastIndexFrom substr t (i + 1) := by rw [hr]; exact Int.natCast_nonneg _
        simp only [lastIndexFrom, h0, if_true, hr]
        omega
      · intro j hj hjl
        obtain ⟨j1, rfl⟩ := Nat.exists_eq_succ_of_ne_zero (by omega : j ≠ 0)
        simp only [List.drop_succ_cons]
        exact hlast j1 (by omega) (by simpa using hjl)

/-- The model of `strings.LastIndex` does what its documentation says: `-1` when
`substr` does not occur in `s`, else the index of its last occurrence. -/
theorem LastIndex_spec (s substr : GoString) :
    (LastIndex s substr = -1 ∧ ∀ i, ¬ OccursAt substr s i) ∨
    (∃ i : Nat, LastIndex s substr = (i : Int) ∧ OccursAt substr s i ∧
      ∀ j, i < j → ¬ OccursAt substr s j) := by
  rcases lastIndexFrom_spec substr s 0 with ⟨hr, hno⟩ | ⟨k, hk, hr, hpre, hlast⟩
  · left
    refine ⟨hr, fun i hi => ?_⟩
    rw [occursAt_iff_prefix_drop] at hi
    exact hno i hi.1 hi.2
  · right
    refine ⟨k, by simpa [LastIndex] using hr, ?_, ?_⟩
    · rw [occursAt_iff_prefix_drop]; exact ⟨hk, hpre⟩
    · intro j hj hocc
      rw [occursAt_iff_prefix_drop] at hocc
      exact hlast j hj hocc.1 hocc.2

theorem LastIndex_eq_of_last {s substr : GoString} {i : Nat}
    (hocc : OccursAt substr s i) (hlast : ∀ j, i < j → ¬ OccursAt substr s j) :
    LastIndex s substr = (i : Int) := by
  rcases LastIndex_spec s substr with ⟨-, hno⟩ | ⟨k, hk, hkocc, hklast⟩
  · exact absurd hocc (hno i)
  · rcases Nat.lt_trichotomy i k with h | h | h
    · exact absurd hkocc (hlast k h)
    · rw [hk, h]
    · exact absurd hocc (hklast i h)

theorem LastIndex_neg_iff (s substr : GoString) :
    LastIndex s substr < 0 ↔ ∀ i, ¬ OccursAt substr s i := by
  rcases LastIndex_spec s substr with ⟨hr, hno⟩ | ⟨k, hk, hkocc, -⟩
  · simp [hr, hno]
  · constructor
    · intro h; rw [hk] at h; omega
    · intro h; exact absurd hkocc (h k)

/-- The index found by `strings.LastIndex` is a valid bound for `s[:i]`. -/
theorem LastIndex_le_length (s substr : GoString) :
    -1 ≤ LastIndex s substr ∧ LastIndex s substr ≤ (s.length : Int) := by
  rcases LastIndex_spec s substr with ⟨hr, -⟩ | ⟨k, hk, hkocc, -⟩
  · rw [hr]; omega
  · have := hkocc.1
    rw [hk]; omega

theorem occursAt_append_length (sa sb : GoString) : OccursAt sb (sa ++ sb) sa.length := by
  refine ⟨by simp, ?_⟩
  simp

/-- What `Decapsulate` does once both renderings have succeeded. -/
theorem Decapsulate_of_renderings (StringToBytes : GoString → List Byte × Option GoString)
    (BytesToString : List Byte → GoString × Option GoString) (m o : Multiaddr)
    {s1 s2 : GoString} (h1 : m.String BytesToString = (s1, none))
    (h2 : o.String BytesToString = (s2, none)) :
    m.Decapsulate StringToBytes BytesToString o
      = if LastIndex s1 s2 < 0 then (none, some (.notContained s2 s1))
        else NewMultiaddr StringToBytes (s1.take (LastIndex s1 s2).toNat) := by
  simp only [Multiaddr.Decapsulate, h1, h2]

/-- The error of `NewMultiaddr` is nil or the error of `StringToBytes`. -/
theorem NewMultiaddr_err_nil_or_codec
    (StringToBytes : GoString → List Byte × Option GoString) (s : GoString) :
    (NewMultiaddr StringToBytes s).2 = none ∨
      ∃ msg, (NewMultiaddr StringToBytes s).2 = some (.codec msg) := by
  unfold NewMultiaddr
  rcases StringToBytes s with ⟨b, _ | err⟩ <;> simp

/-! ## Claims on `Decapsulate` -/

/-- C8: when the renderings `s1` of `m` and `s2` of `o` both succeed and `s2`
occurs in `s1`, `m.Decapsulate(o)` returns what `NewMultiaddr(s1[:i])` returns,
result and error, where `i` is the start index of the last occurrence of `s2`
in `s1`. -/
theorem Decapsulate_parses_prefix_of_last_occurrence
    (StringToBytes : GoString → List Byte × Option GoString)
    (BytesToString : List Byte → GoString × Option GoString)
    (m o : Multiaddr) (s1 s2 : GoString) (i : Nat)
    (h1 : m.String BytesToString = (s1, none))
    (h2 : o.String BytesToString = (s2, none))
    (hocc : OccursAt s2 s1 i)
    (hlast : ∀ j, i < j → ¬ OccursAt s2 s1 j) :
    m.Decapsulate StringToBytes BytesToString o = NewMultiaddr StringToBytes (s1.take i) := by
  rw [Decapsulate_of_renderings StringToBytes BytesToString m o h1 h2,
    LastIndex_eq_of_last hocc hlast, if_neg (by omega), Int.toNat_natCast]

/-- Witness of C8: `/tcp/80` occurs twice in `/tcp/80/ip4/10.0.0.1/tcp/80`, at
the indices 0 and 20; the prefix before the last occurrence is parsed. -/
theorem Decapsulate_parses_prefix_of_last_occurrence_witness :
    OccursAt (ascii "/tcp/80") (ascii "/tcp/80/ip4/10.0.0.1/tcp/80") 0 ∧
    OccursAt (ascii "/tcp/80") (ascii "/tcp/80/ip4/10.0.0.1/tcp/80") 20 ∧
    NewMultiaddr exampleStringToBytes (ascii "/tcp/80/ip4/10.0.0.1")
      = (some ⟨[6, 0, 80, 4, 10, 0, 0, 1]⟩, none) ∧
    Multiaddr.Decapsulate exampleStringToBytes exampleBytesToString
        ⟨[6, 0, 80, 4, 10, 0, 0, 1, 6, 0, 80]⟩ ⟨[6, 0, 80]⟩
      = NewMultiaddr exampleStringToBytes
          ((ascii "/tcp/80/ip4/10.0.0.1/tcp/80").take 20) :=
  ⟨by decide, by decide, by decide,
   Decapsulate_parses_prefix_of_last_occurrence exampleStringToBytes exampleBytesToString
    ⟨[6, 0, 80, 4, 10, 0, 0, 1, 6, 0, 80]⟩ ⟨[6, 0, 80]⟩
    (ascii "/tcp/80/ip4/10.0.0.1/tcp/80") (ascii "/tcp/80") 20
    (by decide) (by decide) (by decide)
    (fun j hj hocc => by
      have hlen : j + 7 ≤ 27 := hocc.1
      omega)⟩

/-- C9: when both renderings succeed, if the rendering `s2` of `c` does not
occur in the rendering `s1` of `a`, `a.Decapsulate(c)` returns no Multiaddr and
the error whose text is `<s2> not contained in <s1>`; and if `s2` does occur in
`s1`, the error of `a.Decapsulate(c)` is nil or the one `StringToBytes` gave
for the prefix, never a not-contained error. -/
theorem Decapsulate_notContained_iff_absent
    (StringToBytes : GoString → List Byte × Option GoString)
    (BytesToString : List Byte → GoString × Option GoString)
    (a c : Multiaddr) (s1 s2 : GoString)
    (h1 : a.String BytesToString = (s1, none))
    (h2 : c.String BytesToString = (s2, none)) :
    ((∀ i, ¬ OccursAt s2 s1 i) →
      a.Decapsulate StringToBytes BytesToString c = (none, some (.notContained s2 s1)) ∧
      (GoError.notContained s2 s1).Error = s2 ++ ascii " not contained in " ++ s1) ∧
    ((∃ i, OccursAt s2 s1 i) →
      ((a.Decapsulate StringToBytes BytesToString c).2 = none ∨
        ∃ msg, (a.Decapsulate StringToBytes BytesToString c).2 = some (.codec msg)) ∧
      ∀ x y, (a.Decapsulate StringToBytes BytesToString c).2 ≠ some (.notContained x y)) := by
  rw [Decapsulate_of_renderings StringToBytes BytesToString a c h1 h2]
  constructor
  · intro hno
    rw [if_pos ((LastIndex_neg_iff s1 s2).mpr hno)]
    exact ⟨rfl, rfl⟩
  · rintro ⟨i, hocc⟩
    have hnn : ¬ LastIndex s1 s2 < 0 := fun h => (LastIndex_neg_iff s1 s2).mp h i hocc
    rw [if_neg hnn]
    have hcases := NewMultiaddr_err_nil_or_codec StringToBytes (s1.take (LastIndex s1 s2).toNat)
    refine ⟨hcases, fun x y => ?_⟩
    rcases hcases with h | ⟨msg, h⟩ <;> rw [h] <;> simp

/-- Witness of C9: `/tcp/81` does not occur in `/ip4/10.0.0.1/tcp/80`, and
`/tcp/80` does. -/
theorem Decapsulate_notContained_iff_absent_witness :
    (Multiaddr.Decapsulate exampleStringToBytes exampleBytesToString
        ⟨[4, 10, 0, 0, 1, 6, 0, 80]⟩ ⟨[6, 0, 81]⟩
      = (none, some (.notContained (ascii "/tcp/81") (ascii "/ip4/10.0.0.1/tcp/80"))) ∧
      (GoError.notContained (ascii "/tcp/81") (ascii "/ip4/10.0.0.1/tcp/80")).Error
        = ascii "/tcp/81" ++ ascii " not contained in " ++ ascii "/ip4/10.0.0.1/tcp/80") ∧
    (((Multiaddr.Decapsulate exampleStringToBytes exampleBytesToString
        ⟨[4, 10, 0, 0, 1, 6, 0, 80]⟩ ⟨[6, 0, 80]⟩).2 = none ∨
      ∃ msg, (Multiaddr.Decapsulate exampleStringToBytes exampleBytesToString
        ⟨[4, 10, 0, 0, 1, 6, 0, 80]⟩ ⟨[6, 0, 80]⟩).2 = some (.codec msg)) ∧
    ∀ x y, (Multiaddr.Decapsulate exampleStringToBytes exampleBytesToString
        ⟨[4, 10, 0, 0, 1, 6, 0, 80]⟩ ⟨[6, 0, 80]⟩).2 ≠ some (.notContained x y)) :=
  ⟨(Decapsulate_notContained_iff_absent exampleStringToBytes exampleBytesToString
      ⟨[4, 10, 0, 0, 1, 6, 0, 80]⟩ ⟨[6, 0, 81]⟩
      (ascii "/ip4/10.0.0.1/tcp/80") (ascii "/tcp/81") (by decide) (by decide)).1
      ((LastIndex_neg_iff _ _).mp (by decide)),
   (Decapsulate_notContained_iff_absent exampleStringToBytes exampleBytesToString
      ⟨[4, 10, 0, 0, 1, 6, 0, 80]⟩ ⟨[6, 0, 80]⟩
      (ascii "/ip4/10.0.0.1/tcp/80") (ascii "/tcp/80") (by decide) (by decide)).2
      ⟨13, by decide⟩⟩

/-- C10: for Multiaddrs `a` and `b` obtained by parsing, with renderings `sa` and
`sb`, such that `a.Encapsulate(b)` renders to `sa ++ sb`, parsing `sa` and
rendering the result gives `sa` back, `sb` is not empty and `sb` has no
occurrence in `sa ++ sb` that starts after the index `len(sa)`:
`a.Encapsulate(b).Decapsulate(b)` succeeds and renders to `sa`. -/
theorem Encapsulate_then_Decapsulate_renders_first
    (StringToBytes : GoString → List Byte × Option GoString)
    (BytesToString : List Byte → GoString × Option GoString)
    (a b : Multiaddr) (ta tb sa sb : GoString)
    (_hpa : NewMultiaddr StringToBytes ta = (some a, none))
    (_hpb : NewMultiaddr StringToBytes tb = (some b, none))
    (hsa : a.String BytesToString = (sa, none))
    (hsb : b.String BytesToString = (sb, none))
    (hconcat : (a.Encapsulate b).String BytesToString = (sa ++ sb, none))
    (hround : ∃ r, NewMultiaddr StringToBytes sa = (some r, none) ∧
      r.String BytesToString = (sa, none))
    (_hne : sb ≠ [])
    (hunamb : ∀ j, sa.length < j → ¬ OccursAt sb (sa ++ sb) j) :
    ∃ r, (a.Encapsulate b).Decapsulate StringToBytes BytesToString b = (some r, none) ∧
      r.String BytesToString = a.String BytesToString := by
  obtain ⟨r, hr, hrs⟩ := hround
  refine ⟨r, ?_, by rw [hrs, hsa]⟩
  rw [Decapsulate_of_renderings StringToBytes BytesToString _ b hconcat hsb,
    LastIndex_eq_of_last (occursAt_append_length sa sb) hunamb, if_neg (by omega),
    Int.toNat_natCast, List.take_left]
  exact hr

/-- Witness of C10: `/ip4/10.0.0.1` encapsulated with `/tcp/80`, then
decapsulated by `/tcp/80`, renders to `/ip4/10.0.0.1`. -/
theorem Encapsulate_then_Decapsulate_renders_first_witness :
    ∃ r, (Multiaddr.Encapsulate ⟨[4, 10, 0, 0, 1]⟩ ⟨[6, 0, 80]⟩).Decapsulate
        exampleStringToBytes exampleBytesToString ⟨[6, 0, 80]⟩ = (some r, none) ∧
      r.String exampleBytesToString
        = Multiaddr.String exampleBytesToString ⟨[4, 10, 0, 0, 1]⟩ :=
  Encapsulate_then_Decapsulate_renders_first exampleStringToBytes exampleBytesToString
    ⟨[4, 10, 0, 0, 1]⟩ ⟨[6, 0, 80]⟩ (ascii "/ip4/10.0.0.1") (ascii "/tcp/80")
    (ascii "/ip4/10.0.0.1") (ascii "/tcp/80")
    (by decide) (by decide) (by decide) (by decide) (by decide)
    ⟨⟨[4, 10, 0, 0, 1]⟩, by decide, by decide⟩ (by decide)
    (fun j hj hocc => by
      have hlen : j + 7 ≤ 20 := hocc.1
      have hj13 : 13 < j := hj
      omega)

/-! ## Lemmas on walks over concatenated buffers -/

theorem ProtocolsLoopBody_collected (PWC : Int → Option Protocol)
    (acc ps : List Protocol) (b : List Byte) :
    ProtocolsLoopBody PWC (acc ++ ps) b
      = match ProtocolsLoopBody PWC ps b with
        | .exit o => .exit (withCollected acc o)
        | .next ps1 b1 => .next (acc ++ ps1) b1 := by
  cases b with
  | nil => simp [ProtocolsLoopBody, withCollected]
  | cons b0 rest =>
    cases hp : PWC (b0.val : Int) with
    | none => simp [ProtocolsLoopBody, hp, withCollected]
    | some p =>
      simp only [ProtocolsLoopBody, hp]
      split <;> simp [withCollected, List.append_assoc]

/-- Starting the loop with `acc` already collected only puts `acc` in front of
the list that is returned. -/
theorem ProtocolsLoop_collected (PWC : Int → Option Protocol) :
    ∀ (fuel : Nat) (acc ps : List Protocol) (b : List Byte),
      ProtocolsLoop PWC fuel (acc ++ ps) b
        = (ProtocolsLoop PWC fuel ps b).map (withCollected acc) := by
  intro fuel
  induction fuel with
  | zero => intro acc ps b; simp [ProtocolsLoop]
  | succ n ih =>
    intro acc ps b
    simp only [ProtocolsLoop, ProtocolsLoopBody_collected]
    cases hb : ProtocolsLoopBody PWC ps b with
    | exit o => simp
    | next ps1 b1 => simpa using ih acc ps1 b1

/-- A walk that consumes the buffer `a` and returns `ps` goes on, over `a ++ b`,
as the walk over `b` that starts with `ps`. -/
theorem ProtocolsLoop_append (PWC : Int → Option Protocol) :
    ∀ (fuel : Nat) (acc : List Protocol) (a : List Byte) (ps : List Protocol),
      ProtocolsLoop PWC fuel acc a = some (.returned ⟨some ps, none⟩) →
      ∀ (b : List Byte) (f2 : Nat) (o : Outcome ProtocolsResult),
        ProtocolsLoop PWC f2 ps b = some o →
        ProtocolsLoop PWC (fuel + f2) acc (a ++ b) = some o := by
  intro fuel
  induction fuel with
  | zero => intro acc a ps h; simp [ProtocolsLoop] at h
  | succ n ih =>
    intro acc a ps h b f2 o ho
    simp only [ProtocolsLoop] at h
    cases hb : ProtocolsLoopBody PWC acc a with
    | exit o1 =>
      rw [hb] at h
      simp only [Option.some.injEq] at h
      subst h
      cases a with
      | nil =>
        simp only [ProtocolsLoopBody, LoopStep.exit.injEq, Outcome.returned.injEq,
          ProtocolsResult.mk.injEq, Option.some.injEq, and_true] at hb
        subst hb
        rw [List.nil_append, Nat.add_comm]
        exact ProtocolsLoop_mono PWC _ _ _ _ ho _
      | cons b0 rest =>
        cases hp : PWC (b0.val : Int) with
        | none => simp [ProtocolsLoopBody, hp] at hb
        | some p =>
          simp only [ProtocolsLoopBody, hp] at hb
          split at hb <;> simp at hb
    | next ps1 b1 =>
      rw [hb] at h
      obtain ⟨b0, rest, p, rfl, hp, h0, h1, rfl, rfl⟩ := ProtocolsLoopBody_next hb
      have hbody := ProtocolsLoopBody_of_resolves acc (rest ++ b) hp h0
        (by simp only [List.length_cons, List.length_append] at h1 ⊢; omega)
      have hdrop : (b0 :: (rest ++ b)).drop (segmentWidth p).toNat
          = (b0 :: rest).drop (segmentWidth p).toNat ++ b := by
        rw [← List.cons_append, List.drop_append_of_le_length]
        omega
      rw [hdrop] at hbody
      rw [show n + 1 + f2 = (n + f2) + 1 by omega, List.cons_append]
      simp only [ProtocolsLoop, hbody]
      exact ih _ _ _ h b f2 o ho

/-- The outcome of the loop does not depend on the fuel, once there is one. -/
theorem ProtocolsLoop_deterministic (PWC : Int → Option Protocol) {f1 f2 : Nat}
    {ps : List Protocol} {b : List Byte} {o1 o2 : Outcome ProtocolsResult}
    (h1 : ProtocolsLoop PWC f1 ps b = some o1) (h2 : ProtocolsLoop PWC f2 ps b = some o2) :
    o1 = o2 := by
  rcases Nat.le_total f1 f2 with h | h
  · obtain ⟨k, rfl⟩ := Nat.exists_eq_add_of_le h
    have := ProtocolsLoop_mono PWC _ _ _ _ h1 k
    rw [this] at h2
    exact Option.some.inj h2
  · obtain ⟨k, rfl⟩ := Nat.exists_eq_add_of_le h
    have := ProtocolsLoop_mono PWC _ _ _ _ h2 k
    rw [this] at h1
    exact (Option.some.inj h1).symm

/-- The result of `Protocols` comes from an outcome of the loop, through the
deferred handler. -/
theorem loop_of_Protocols {PWC : Int → Option Protocol} {fuel : Nat} {m : Multiaddr}
    {r : ProtocolsResult} (h : m.Protocols PWC fuel = some r) :
    ProtocolsLoop PWC fuel [] m.Bytes = some (.returned r) ∨
      ∃ e, ProtocolsLoop PWC fuel [] m.Bytes = some (.panicked e) ∧
        r = ⟨none, some (.runtime e)⟩ := by
  unfold Multiaddr.Protocols at h
  cases hl : ProtocolsLoop PWC fuel [] m.Bytes with
  | none => rw [hl] at h; simp at h
  | some o =>
    rw [hl] at h
    cases o with
    | returned r1 => simp only [Option.some.injEq] at h; subst h; exact Or.inl rfl
    | panicked e => simp only [Option.some.injEq] at h; exact Or.inr ⟨e, rfl, h.symm⟩

theorem loop_of_Protocols_success {PWC : Int → Option Protocol} {fuel : Nat} {m : Multiaddr}
    {ps : List Protocol} (h : m.Protocols PWC fuel = some ⟨some ps, none⟩) :
    ProtocolsLoop PWC fuel [] m.Bytes = some (.returned ⟨some ps, none⟩) := by
  rcases loop_of_Protocols h with hl | ⟨e, -, he⟩
  · exact hl
  · simp at he

/-- With non-negative sizes, an outcome of the loop at some fuel is its outcome
at every fuel above the number of bytes. -/
theorem ProtocolsLoop_at_any_fuel (PWC : Int → Option Protocol)
    (hsize : ∀ c p, PWC c = some p → 0 ≤ p.Size) {f : Nat} {ps : List Protocol}
    {b : List Byte} {o : Outcome ProtocolsResult} (h : ProtocolsLoop PWC f ps b = some o)
    (fuel : Nat) (hfuel : b.length < fuel) :
    ProtocolsLoop PWC fuel ps b = some o := by
  obtain ⟨o1, ho1⟩ := ProtocolsLoop_total PWC hsize fuel ps b hfuel
  rw [ho1, ProtocolsLoop_deterministic PWC ho1 h]

/-! ## Claims on the round trip and on `Protocols` after `Encapsulate` -/

/-- C11: for every text `t` that `NewMultiaddr` accepts, the Multiaddr stores
exactly the bytes that `StringToBytes` produced for `t`, and `String()` returns
exactly what `BytesToString` returns on those bytes; with the codec contract of
the spec at `t`, `String()` therefore succeeds and equals `t`, and it does so
only if the codec decodes those bytes to `t`. -/
theorem NewMultiaddr_String_round_trip
    (StringToBytes : GoString → List Byte × Option GoString)
    (BytesToString : List Byte → GoString × Option GoString)
    (t : GoString) (m : Multiaddr)
    (hcodec : CodecInverseAt StringToBytes BytesToString t)
    (hacc : NewMultiaddr StringToBytes t = (some m, none)) :
    m.String BytesToString = (t, none) ∧
      StringToBytes t = (m.Bytes, none) ∧
      m.String BytesToString
        = ((BytesToString m.Bytes).1, (BytesToString m.Bytes).2.map GoError.codec) ∧
      (m.String BytesToString = (t, none) ↔ BytesToString m.Bytes = (t, none)) := by
  have hstb : StringToBytes t = (m.Bytes, none) := by
    unfold NewMultiaddr at hacc
    rcases hs : StringToBytes t with ⟨b, _ | err⟩
    · rw [hs] at hacc
      simp only [Prod.mk.injEq, Option.some.injEq, and_true] at hacc
      rw [← hacc]
    · rw [hs] at hacc
      simp at hacc
  have hstr : m.String BytesToString
      = ((BytesToString m.Bytes).1, (BytesToString m.Bytes).2.map GoError.codec) := by
    unfold Multiaddr.String
    rcases BytesToString m.Bytes with ⟨s, err⟩
    rfl
  have hiff : (m.String BytesToString = (t, none) ↔ BytesToString m.Bytes = (t, none)) := by
    rw [hstr]
    rcases BytesToString m.Bytes with ⟨s, _ | err⟩ <;> simp
  exact ⟨hiff.mpr (hcodec _ hstb), hstb, hstr, hiff⟩

/-- Witness of C11 with the example codec: `/ip4/127.0.0.1/tcp/4001` is parsed
to its buffer and rendered back to the same text. -/
theorem NewMultiaddr_String_round_trip_witness :
    NewMultiaddr exampleStringToBytes (ascii "/ip4/127.0.0.1/tcp/4001")
        = (some exampleAddr, none) ∧
      exampleAddr.String exampleBytesToString = (ascii "/ip4/127.0.0.1/tcp/4001", none) :=
  ⟨by decide,
   (NewMultiaddr_String_round_trip exampleStringToBytes exampleBytesToString
      (ascii "/ip4/127.0.0.1/tcp/4001") exampleAddr
      (fun b hb => by
        have hb1 : b = [4, 127, 0, 0, 1, 6, 15, 161] :=
          (congrArg Prod.fst hb).symm.trans (by decide)
        rw [hb1]
        decide)
      (by decide)).1⟩

/-- C20: with non-negative protocol sizes, when `a.Protocols()` succeeds with
`ps`: if `b.Protocols()` succeeds with `qs` then `a.Encapsulate(b).Protocols()`
succeeds with `ps ++ qs`, and if `b.Protocols()` fails then
`a.Encapsulate(b).Protocols()` fails, with the same result as `b`; both at every
fuel above the length of the encapsulated buffer. -/
theorem Protocols_Encapsulate_distributes (PWC : Int → Option Protocol)
    (hsize : ∀ c p, PWC c = some p → 0 ≤ p.Size) (a b : Multiaddr) (fa fb : Nat)
    (ps : List Protocol) (ha : a.Protocols PWC fa = some ⟨some ps, none⟩) :
    (∀ qs, b.Protocols PWC fb = some ⟨some qs, none⟩ →
      ∀ fuel, (a.Encapsulate b).Bytes.length < fuel →
        (a.Encapsulate b).Protocols PWC fuel = some ⟨some (ps ++ qs), none⟩) ∧
    (∀ r, b.Protocols PWC fb = some r → r.err ≠ none →
      ∀ fuel, (a.Encapsulate b).Bytes.length < fuel →
        (a.Encapsulate b).Protocols PWC fuel = some r ∧ r.ret = none) := by
  have hla := loop_of_Protocols_success ha
  have key : ∀ o, ProtocolsLoop PWC fb [] b.Bytes = some o →
      ∀ fuel, (a.Encapsulate b).Bytes.length < fuel →
        ProtocolsLoop PWC fuel [] (a.Encapsulate b).Bytes = some (withCollected ps o) := by
    intro o ho fuel hfuel
    have hshift := ProtocolsLoop_collected PWC fb ps [] b.Bytes
    rw [List.append_nil, ho, Option.map_some'] at hshift
    have happ := ProtocolsLoop_append PWC fa [] a.Bytes ps hla b.Bytes fb _ hshift
    exact ProtocolsLoop_at_any_fuel PWC hsize happ fuel hfuel
  constructor
  · intro qs hb fuel hfuel
    have := key _ (loop_of_Protocols_success hb) fuel hfuel
    exact Protocols_of_loop_returned this
  · intro r hb herr fuel hfuel
    rcases loop_of_Protocols hb with hl | ⟨e, hl, rfl⟩
    · rcases ProtocolsLoop_returned_shape PWC fb [] b.Bytes r hl with ⟨qs, rfl⟩ | ⟨e, rfl⟩
      · exact absurd rfl herr
      · exact ⟨Protocols_of_loop_returned (key _ hl fuel hfuel), rfl⟩
    · exact ⟨Protocols_of_loop_panicked (key _ hl fuel hfuel), rfl⟩

/-- Witness of C20 on the example table: `/ip4/127.0.0.1` encapsulated with
`/tcp/4001` gives `[ip4, tcp]`, and encapsulated with a truncated `tcp`
segment it fails as that segment does. -/
theorem Protocols_Encapsulate_distributes_witness :
    (Multiaddr.Encapsulate ⟨[4, 127, 0, 0, 1]⟩ ⟨[6, 15, 161]⟩).Protocols
        exampleProtocolWithCode 9
      = some ⟨some ([⟨4, 32, ascii "ip4"⟩] ++ [⟨6, 16, ascii "tcp"⟩]), none⟩ ∧
    ((Multiaddr.Encapsulate ⟨[4, 127, 0, 0, 1]⟩ ⟨[6, 15]⟩).Protocols
        exampleProtocolWithCode 8
      = some ⟨none, some (.runtime (.sliceBounds 3 2))⟩ ∧
      (ProtocolsResult.mk none (some (.runtime (.sliceBounds 3 2)))).ret = none) :=
  ⟨(Protocols_Encapsulate_distributes exampleProtocolWithCode
      exampleProtocolWithCode_size_nonneg ⟨[4, 127, 0, 0, 1]⟩ ⟨[6, 15, 161]⟩ 2 2
      [⟨4, 32, ascii "ip4"⟩] (by decide)).1 [⟨6, 16, ascii "tcp"⟩] (by decide) 9 (by decide),
   (Protocols_Encapsulate_distributes exampleProtocolWithCode
      exampleProtocolWithCode_size_nonneg ⟨[4, 127, 0, 0, 1]⟩ ⟨[6, 15]⟩ 2 1
      [⟨4, 32, ascii "ip4"⟩] (by decide)).2 ⟨none, some (.runtime (.sliceBounds 3 2))⟩
      (by decide) (by decide) 8 (by decide)⟩

/-! ## Lemmas on the registry -/

theorem foldl_insert_apply {V : Type} (names : List GoString) (v : V) (m : GoMap V)
    (k : GoString) :
    (names.foldl (fun m n => m.insert n v) m) k = if k ∈ names then some v else m k := by
  induction names generalizing m with
  | nil => simp
  | cons n ns ih =>
    rw [List.foldl_cons, ih]
    by_cases hk : k ∈ ns
    · simp [hk]
    · by_cases hn : k = n
      · simp [hn, GoMap.insert]
      · simp [hk, hn, GoMap.insert]

theorem addrParsers_RegisterAddressType {AP MP : Type} (r : Registry AP MP)
    (a : AddressSpec AP MP) (k : GoString) :
    (RegisterAddressType r a).addrParsers k
      = if k ∈ a.NetNames then some a.ParseNetAddr else r.addrParsers k := by
  simp only [RegisterAddressType, foldl_insert_apply]

theorem maddrParsers_RegisterAddressType {AP MP : Type} (r : Registry AP MP)
    (a : AddressSpec AP MP) (k : GoString) :
    (RegisterAddressType r a).maddrParsers k
      = if k = a.Key then some a.ConvertMultiaddr else r.maddrParsers k := by
  simp only [RegisterAddressType, GoMap.insert]

theorem getAddrParser_of_stored {AP MP : Type} {r : Registry AP MP} {net : GoString} {f : AP}
    (h : r.addrParsers net = some f) : getAddrParser r net = (some f, none) := by
  simp [getAddrParser, h]

theorem getAddrParser_of_absent {AP MP : Type} {r : Registry AP MP} {net : GoString}
    (h : r.addrParsers net = none) :
    getAddrParser r net = (none, some (.unknownNetwork net)) := by
  simp [getAddrParser, h]

theorem getMaddrParser_of_stored {AP MP : Type} {r : Registry AP MP} {name : GoString} {f : MP}
    (h : r.maddrParsers name = some f) : getMaddrParser r name = (some f, none) := by
  simp [getMaddrParser, h]

theorem getMaddrParser_of_absent {AP MP : Type} {r : Registry AP MP} {name : GoString}
    (h : r.maddrParsers name = none) :
    getMaddrParser r name = (none, some (.networkNotSupported name)) := by
  simp [getMaddrParser, h]

theorem getAddrParser_succeeds_iff {AP MP : Type} (r : Registry AP MP) (net : GoString) :
    (getAddrParser r net).2 = none ↔ r.addrParsers net ≠ none := by
  cases h : r.addrParsers net <;> simp [getAddrParser, h]

theorem getMaddrParser_succeeds_iff {AP MP : Type} (r : Registry AP MP) (name : GoString) :
    (getMaddrParser r name).2 = none ↔ r.maddrParsers name ≠ none := by
  cases h : r.maddrParsers name <;> simp [getMaddrParser, h]

/-- Registrations only add to the maps: what is stored stays stored. -/
theorem foldl_RegisterAddressType_keeps {AP MP : Type} (specs : List (AddressSpec AP MP)) :
    ∀ (r : Registry AP MP) (k : GoString),
      (r.addrParsers k ≠ none → (specs.foldl RegisterAddressType r).addrParsers k ≠ none) ∧
      (r.maddrParsers k ≠ none → (specs.foldl RegisterAddressType r).maddrParsers k ≠ none) := by
  induction specs with
  | nil => intro r k; exact ⟨id, id⟩
  | cons a rest ih =>
    intro r k
    rw [List.foldl_cons]
    constructor
    · intro h
      apply (ih (RegisterAddressType r a) k).1
      rw [addrParsers_RegisterAddressType]
      split
      · simp
      · exact h
    · intro h
      apply (ih (RegisterAddressType r a) k).2
      rw [maddrParsers_RegisterAddressType]
      split
      · simp
      · exact h

theorem Registry_ext {AP MP : Type} {r1 r2 : Registry AP MP}
    (ha : ∀ k, r1.addrParsers k = r2.addrParsers k)
    (hm : ∀ k, r1.maddrParsers k = r2.maddrParsers k) : r1 = r2 := by
  cases r1
  cases r2
  simp only [Registry.mk.injEq]
  exact ⟨funext ha, funext hm⟩

/-! ## Claims on the registry -/

/-- C12: for every registry state and every AddressSpec `a`, after
`RegisterAddressType(a)`, `getAddrParser(n)` succeeds and returns
`a.ParseNetAddr` for every `n` in `a.NetNames`, and `getMaddrParser(a.Key)`
succeeds and returns `a.ConvertMultiaddr`. -/
theorem RegisterAddressType_then_lookup {AP MP : Type} (r : Registry AP MP)
    (a : AddressSpec AP MP) :
    (∀ n, n ∈ a.NetNames →
      getAddrParser (RegisterAddressType r a) n = (some a.ParseNetAddr, none)) ∧
    getMaddrParser (RegisterAddressType r a) a.Key = (some a.ConvertMultiaddr, none) := by
  constructor
  · intro n hn
    apply getAddrParser_of_stored
    rw [addrParsers_RegisterAddressType, if_pos hn]
  · apply getMaddrParser_of_stored
    rw [maddrParsers_RegisterAddressType, if_pos rfl]

/-- Witness of C12: after registering the spec with NetNames `tcp`, `tcp4`,
`tcp6` and Key `tcp`, the names `tcp4` and `tcp` resolve to its converter, and
the key `tcp` to its converter back. -/
theorem RegisterAddressType_then_lookup_witness :
    getAddrParser (tcpOnlyRegistry exampleConverters) (ascii "tcp4")
        = (some (ascii "parseTcpNetAddr"), none) ∧
      getAddrParser (tcpOnlyRegistry exampleConverters) (ascii "tcp")
        = (some (ascii "parseTcpNetAddr"), none) ∧
      getMaddrParser (tcpOnlyRegistry exampleConverters) (ascii "tcp")
        = (some (ascii "parseBasicNetMaddr"), none) :=
  ⟨(RegisterAddressType_then_lookup ⟨GoMap.empty, GoMap.empty⟩
      (tcpAddrSpec exampleConverters)).1 (ascii "tcp4") (by decide),
   (RegisterAddressType_then_lookup ⟨GoMap.empty, GoMap.empty⟩
      (tcpAddrSpec exampleConverters)).1 (ascii "tcp") (by decide),
   (RegisterAddressType_then_lookup ⟨GoMap.empty, GoMap.empty⟩
      (tcpAddrSpec exampleConverters)).2⟩

/-- C13: for every registry state, `getAddrParser(name)` fails if and only if
nothing is stored under `name`, and it then returns a nil parser and the error
`unknown network <name>`; `getMaddrParser(key)` fails if and only if nothing is
stored under `key`, and it then returns a nil parser and the error
`network not supported: <key>`; in the registry where only the tcp spec has
been registered, `getMaddrParser("udp")` fails. -/
theorem getParser_fails_iff_absent {AP MP : Type} (r : Registry AP MP) (name : GoString)
    (c : Converters AP MP) :
    ((getAddrParser r name).2 ≠ none ↔ r.addrParsers name = none) ∧
    (r.addrParsers name = none →
      getAddrParser r name = (none, some (.unknownNetwork name)) ∧
      (RegistryError.unknownNetwork name).Error = ascii "unknown network " ++ name) ∧
    ((getMaddrParser r name).2 ≠ none ↔ r.maddrParsers name = none) ∧
    (r.maddrParsers name = none →
      getMaddrParser r name = (none, some (.networkNotSupported name)) ∧
      (RegistryError.networkNotSupported name).Error
        = ascii "network not supported: " ++ name) ∧
    getMaddrParser (tcpOnlyRegistry c) (ascii "udp")
      = (none, some (.networkNotSupported (ascii "udp"))) := by
  refine ⟨?_, fun h => ⟨getAddrParser_of_absent h, rfl⟩, ?_,
    fun h => ⟨getMaddrParser_of_absent h, rfl⟩, ?_⟩
  · rw [Ne, getAddrParser_succeeds_iff, not_not]
  · rw [Ne, getMaddrParser_succeeds_iff, not_not]
  · apply getMaddrParser_of_absent
    have hne : ¬ ascii "udp" = (tcpAddrSpec c).Key := by
      show ¬ ascii "udp" = ascii "tcp"
      decide
    rw [tcpOnlyRegistry, maddrParsers_RegisterAddressType, if_neg hne]
    rfl

/-- Witness of C13: in the registry with only the tcp spec, nothing is stored
under `udp`, for either map. -/
theorem getParser_fails_iff_absent_witness :
    (getAddrParser (tcpOnlyRegistry exampleConverters) (ascii "udp")
        = (none, some (.unknownNetwork (ascii "udp"))) ∧
      (RegistryError.unknownNetwork (ascii "udp")).Error = ascii "unknown network udp") ∧
    (getMaddrParser (tcpOnlyRegistry exampleConverters) (ascii "udp")
        = (none, some (.networkNotSupported (ascii "udp"))) ∧
      (RegistryError.networkNotSupported (ascii "udp")).Error
        = ascii "network not supported: udp") :=
  ⟨(getParser_fails_iff_absent (tcpOnlyRegistry exampleConverters) (ascii "udp")
      exampleConverters).2.1 (by decide),
   (getParser_fails_iff_absent (tcpOnlyRegistry exampleConverters) (ascii "udp")
      exampleConverters).2.2.2.1 (by decide)⟩

/-- C14: for every registry state and AddressSpecs `a` then `b` registered in
that order: if they share a Key, `getMaddrParser` of that key returns
`b.ConvertMultiaddr`; for every name in both `a.NetNames` and `b.NetNames`,
`getAddrParser` returns `b.ParseNetAddr`; and registering `a` twice leaves the
registry as registering it once.  `RegisterAddressType` has no error result. -/
theorem RegisterAddressType_last_wins {AP MP : Type} (r : Registry AP MP)
    (a b : AddressSpec AP MP) :
    (a.Key = b.Key →
      getMaddrParser (RegisterAddressType (RegisterAddressType r a) b) a.Key
        = (some b.ConvertMultiaddr, none)) ∧
    (∀ n, n ∈ a.NetNames → n ∈ b.NetNames →
      getAddrParser (RegisterAddressType (RegisterAddressType r a) b) n
        = (some b.ParseNetAddr, none)) ∧
    RegisterAddressType (RegisterAddressType r a) a = RegisterAddressType r a := by
  refine ⟨?_, ?_, ?_⟩
  · intro hkey
    apply getMaddrParser_of_stored
    rw [maddrParsers_RegisterAddressType, if_pos hkey]
  · intro n _ hb
    apply getAddrParser_of_stored
    rw [addrParsers_RegisterAddressType, if_pos hb]
  · apply Registry_ext
    · intro k
      rw [addrParsers_RegisterAddressType, addrParsers_RegisterAddressType]
      split <;> rfl
    · intro k
      rw [maddrParsers_RegisterAddressType, maddrParsers_RegisterAddressType]
      split <;> rfl

/-- Witness of C14: a second spec with the names and the key of the tcp spec and
other converters takes over `tcp4` and the key `tcp`. -/
theorem RegisterAddressType_last_wins_witness :
    getMaddrParser (RegisterAddressType (tcpOnlyRegistry exampleConverters)
        ⟨[ascii "tcp", ascii "tcp4"], ascii "tcp", ascii "parseOther", ascii "convertOther",
          zeroProtocol⟩) (ascii "tcp")
      = (some (ascii "convertOther"), none) ∧
    getAddrParser (RegisterAddressType (tcpOnlyRegistry exampleConverters)
        ⟨[ascii "tcp", ascii "tcp4"], ascii "tcp", ascii "parseOther", ascii "convertOther",
          zeroProtocol⟩) (ascii "tcp4")
      = (some (ascii "parseOther"), none) :=
  ⟨(RegisterAddressType_last_wins ⟨GoMap.empty, GoMap.empty⟩ (tcpAddrSpec exampleConverters)
      ⟨[ascii "tcp", ascii "tcp4"], ascii "tcp", ascii "parseOther", ascii "convertOther",
        zeroProtocol⟩).1 (by decide),
   (RegisterAddressType_last_wins ⟨GoMap.empty, GoMap.empty⟩ (tcpAddrSpec exampleConverters)
      ⟨[ascii "tcp", ascii "tcp4"], ascii "tcp", ascii "parseOther", ascii "convertOther",
        zeroProtocol⟩).2.1 (ascii "tcp4") (by decide) (by decide)⟩

/-- C15: for every registry state and AddressSpec `a`, after
`RegisterAddressType(a)` the result of `getAddrParser(n)` is unchanged for every
`n` not in `a.NetNames` and the result of `getMaddrParser(k)` is unchanged for
every `k` other than `a.Key`; and a name or key that resolves before a sequence
of registrations resolves after it. -/
theorem RegisterAddressType_frame {AP MP : Type} (r : Registry AP MP)
    (a : AddressSpec AP MP) (specs : List (AddressSpec AP MP)) :
    (∀ n, n ∉ a.NetNames →
      getAddrParser (RegisterAddressType r a) n = getAddrParser r n) ∧
    (∀ k, k ≠ a.Key →
      getMaddrParser (RegisterAddressType r a) k = getMaddrParser r k) ∧
    (∀ n, (getAddrParser r n).2 = none →
      (getAddrParser (specs.foldl RegisterAddressType r) n).2 = none) ∧
    (∀ k, (getMaddrParser r k).2 = none →
      (getMaddrParser (specs.foldl RegisterAddressType r) k).2 = none) := by
  refine ⟨?_, ?_, ?_, ?_⟩
  · intro n hn
    simp only [getAddrParser, addrParsers_RegisterAddressType, if_neg hn]
  · intro k hk
    simp only [getMaddrParser, maddrParsers_RegisterAddressType, if_neg hk]
  · intro n hn
    rw [getAddrParser_succeeds_iff] at hn ⊢
    exact (foldl_RegisterAddressType_keeps specs r n).1 hn
  · intro k hk
    rw [getMaddrParser_succeeds_iff] at hk ⊢
    exact (foldl_RegisterAddressType_keeps specs r k).2 hk

/-- Witness of C15: registering the udp spec on the registry with only the tcp
spec leaves `tcp4` and the key `tcp` as they were, and they still resolve after
the udp and utp specs. -/
theorem RegisterAddressType_frame_witness :
    getAddrParser (RegisterAddressType (tcpOnlyRegistry exampleConverters)
        (udpAddrSpec exampleConverters)) (ascii "tcp4")
      = getAddrParser (tcpOnlyRegistry exampleConverters) (ascii "tcp4") ∧
    getMaddrParser (RegisterAddressType (tcpOnlyRegistry exampleConverters)
        (udpAddrSpec exampleConverters)) (ascii "tcp")
      = getMaddrParser (tcpOnlyRegistry exampleConverters) (ascii "tcp") ∧
    (getAddrParser ([udpAddrSpec exampleConverters, utpAddrSpec exampleConverters].foldl
        RegisterAddressType (tcpOnlyRegistry exampleConverters)) (ascii "tcp4")).2 = none :=
  ⟨(RegisterAddressType_frame (tcpOnlyRegistry exampleConverters)
      (udpAddrSpec exampleConverters) []).1 (ascii "tcp4") (by decide),
   (RegisterAddressType_frame (tcpOnlyRegistry exampleConverters)
      (udpAddrSpec exampleConverters) []).2.1 (ascii "tcp") (by decide),
   (RegisterAddressType_frame (tcpOnlyRegistry exampleConverters)
      (udpAddrSpec exampleConverters)
      [udpAddrSpec exampleConverters, utpAddrSpec exampleConverters]).2.2.1
      (ascii "tcp4") (by decide)⟩

/-- C16: in the state produced by `init`, `getAddrParser` succeeds for exactly
the names tcp, tcp4, tcp6, udp, udp4, udp6, utp, utp4, utp6, ip4, ip6 and
ip+net, and `getMaddrParser` succeeds for exactly the keys tcp, udp, utp, ip4
and ip6; it fails for `ip+net`. -/
theorem init_registered_names {AP MP : Type} (c : Converters AP MP) :
    (∀ n, (getAddrParser (init c) n).2 = none ↔
      n ∈ [ascii "tcp", ascii "tcp4", ascii "tcp6", ascii "udp", ascii "udp4", ascii "udp6",
        ascii "utp", ascii "utp4", ascii "utp6", ascii "ip4", ascii "ip6", ascii "ip+net"]) ∧
    (∀ k, (getMaddrParser (init c) k).2 = none ↔
      k ∈ [ascii "tcp", ascii "udp", ascii "utp", ascii "ip4", ascii "ip6"]) ∧
    getMaddrParser (init c) (ascii "ip+net")
      = (none, some (.networkNotSupported (ascii "ip+net"))) := by
  have hm : ∀ k, (getMaddrParser (init c) k).2 = none ↔
      k ∈ [ascii "tcp", ascii "udp", ascii "utp", ascii "ip4", ascii "ip6"] := by
    intro k
    rw [getMaddrParser_succeeds_iff]
    simp only [init, maddrParsers_RegisterAddressType, tcpAddrSpec, udpAddrSpec, utpAddrSpec,
      ip4AddrSpec, ip6AddrSpec, GoMap.empty, List.mem_cons, List.mem_singleton]
    split_ifs <;> simp_all
  refine ⟨?_, hm, ?_⟩
  · intro n
    rw [getAddrParser_succeeds_iff]
    simp only [init, GoMap.insert, addrParsers_RegisterAddressType, tcpAddrSpec, udpAddrSpec,
      utpAddrSpec, ip4AddrSpec, ip6AddrSpec, GoMap.empty, List.mem_cons, List.mem_singleton]
    split_ifs <;> simp_all
  · have hnot : ¬ (getMaddrParser (init c) (ascii "ip+net")).2 = none := by
      rw [hm]
      decide
    rw [getMaddrParser_succeeds_iff, not_not] at hnot
    exact getMaddrParser_of_absent hnot

/-! ## Lemmas on slices and backing arrays -/

theorem Heap.getD_append_left (h extra : Heap) (i : Nat) (hi : i < h.length) :
    (h ++ extra).getD i [] = h.getD i [] := by
  simp [List.getD_eq_getElem?_getD, List.getElem?_append_left hi]

theorem Heap.read_append_left (h extra : Heap) (s : Slice) (hs : s.array < h.length) :
    Heap.read (h ++ extra) s = Heap.read h s := by
  simp only [Heap.read, Heap.getD_append_left h extra s.array hs]

theorem Heap.read_length (h : Heap) (s : Slice) (hs : h.WF s) : (h.read s).length = s.len := by
  obtain ⟨-, hcap, hlen⟩ := hs
  simp only [Heap.read, List.length_take, List.length_drop]
  omega

theorem take_append_window (arr xs : List Byte) (off len : Nat) (hfit : off + len ≤ arr.length)
    (tail : List Byte) :
    ((arr.take (off + len) ++ xs ++ tail).drop off).take (len + xs.length)
      = (arr.drop off).take len ++ xs := by
  have h1 : (arr.take (off + len)).length = off + len := by
    rw [List.length_take]; omega
  rw [List.append_assoc, List.drop_append_of_le_length (by omega), List.drop_take]
  have h2 : ((arr.drop off).take (off + len - off)).length = len := by
    rw [List.length_take, List.length_drop]; omega
  rw [show off + len - off = len by omega] at h2 ⊢
  rw [← List.append_assoc, List.take_append_of_le_length (by rw [List.length_append, h2])]
  rw [List.take_of_length_le (by rw [List.length_append, h2])]

theorem take_append_window_left (arr xs : List Byte) (off len : Nat)
    (hfit : off + len ≤ arr.length) (tail : List Byte) :
    ((arr.take (off + len) ++ xs ++ tail).drop off).take len = (arr.drop off).take len := by
  have h1 : (arr.take (off + len)).length = off + len := by
    rw [List.length_take]; omega
  rw [List.append_assoc, List.drop_append_of_le_length (by omega), List.drop_take]
  rw [show off + len - off = len by omega]
  rw [List.take_append_of_le_length (by rw [List.length_take, List.length_drop]; omega)]
  rw [List.take_take, Nat.min_self]


theorem Heap.getD_set_self (h : Heap) (i : Nat) (a : List Byte) (hi : i < h.length) :
    (h.set i a).getD i [] = a := by
  simp [List.getD_eq_getElem?_getD, List.getElem?_set, hi]

/-- What `append` returns holds the elements of its first argument followed by
those of its second, as they are at the call; the first argument keeps its
elements. -/
theorem appendBytes_contents (h : Heap) (s x : Slice) (hs : h.WF s) (hx : h.WF x) :
    (appendBytes h s x).1.read (appendBytes h s x).2 = h.read s ++ h.read x ∧
      (appendBytes h s x).1.read s = h.read s := by
  have hxlen := Heap.read_length h x hx
  have hslen := Heap.read_length h s hs
  obtain ⟨harr, hcap, hlen⟩ := hs
  unfold appendBytes
  simp only
  split
  · rename_i hfit
    constructor
    · simp only [Heap.read, Heap.getD_set_self h _ _ harr]
      have := take_append_window (h.getD s.array []) (h.read x) s.off s.len (by omega)
        ((h.getD s.array []).drop (s.off + s.len + x.len))
      rw [hxlen] at this
      exact this
    · simp only [Heap.read, Heap.getD_set_self h _ _ harr]
      exact take_append_window_left (h.getD s.array []) _ s.off s.len (by omega) _
  · constructor
    · simp only [Heap.read, List.getD_eq_getElem?_getD, List.getElem?_concat_length,
        Option.getD_some, List.drop_zero]
      apply List.take_of_length_le
      rw [List.length_append]
      have h1 := hslen
      have h2 := hxlen
      simp only [Heap.read, List.getD_eq_getElem?_getD] at h1 h2
      omega
    · exact Heap.read_append_left h _ s harr

/-- The method `Encapsulate` on the heap returns a Multiaddr whose contents are
those that `Multiaddr.Encapsulate` gives on the contents of the operands, and
leaves the contents of its receiver as they were. -/
theorem HeapEncapsulate_contents (h : Heap) (m o : HeapMultiaddr)
    (hm : h.WF m.Bytes) (ho : h.WF o.Bytes) :
    (m.Encapsulate h o).2.contents (m.Encapsulate h o).1
        = (m.contents h).Encapsulate (o.contents h) ∧
      m.contents (m.Encapsulate h o).1 = m.contents h := by
  have hm1 : Heap.WF (h ++ [List.replicate (m.Bytes.len + o.Bytes.len) 0]) m.Bytes := by
    obtain ⟨harr, hcap, hlen⟩ := hm
    refine ⟨by rw [List.length_append]; omega, ?_, hlen⟩
    rw [Heap.getD_append_left h _ _ harr]
    exact hcap
  have ho1 : Heap.WF (h ++ [List.replicate (m.Bytes.len + o.Bytes.len) 0]) o.Bytes := by
    obtain ⟨harr, hcap, hlen⟩ := ho
    refine ⟨by rw [List.length_append]; omega, ?_, hlen⟩
    rw [Heap.getD_append_left h _ _ harr]
    exact hcap
  have happ := appendBytes_contents _ m.Bytes o.Bytes hm1 ho1
  rw [Heap.read_append_left h _ _ hm.1, Heap.read_append_left h _ _ ho.1] at happ
  simp only [HeapMultiaddr.Encapsulate, makeBytes, HeapMultiaddr.contents,
    Multiaddr.Encapsulate, Multiaddr.mk.injEq]
  exact happ

/-! ## Claims on the storage of `Encapsulate` -/

/-- C19, the code at a failing input: `a` is `/tcp/80` in a slice of length 3 and
capacity 8, `b` is `/tcp/81`, `c` is `/tcp/82`.  The result `r1` of
`a.Encapsulate(b)` is a window on the backing array of `a`; right after the
call its bytes are `a.Bytes ++ b.Bytes`, and after the later call
`a.Encapsulate(c)` its bytes are `a.Bytes ++ c.Bytes`: the buffer of `r1` has
been mutated in place.  The bytes of `a` itself stay as they were. -/
theorem Encapsulate_result_overwritten_by_later_call :
    (exampleHeapA.Encapsulate exampleHeap exampleHeapB).2.Bytes.array
        = exampleHeapA.Bytes.array ∧
      (exampleHeapA.Encapsulate exampleHeap exampleHeapB).2.contents
          (exampleHeapA.Encapsulate exampleHeap exampleHeapB).1
        = ⟨[6, 0, 80, 6, 0, 81]⟩ ∧
      (exampleHeapA.Encapsulate exampleHeap exampleHeapB).2.contents
          (exampleHeapA.Encapsulate
            (exampleHeapA.Encapsulate exampleHeap exampleHeapB).1 exampleHeapC).1
        = ⟨[6, 0, 80, 6, 0, 82]⟩ ∧
      exampleHeapA.contents
          (exampleHeapA.Encapsulate
            (exampleHeapA.Encapsulate exampleHeap exampleHeapB).1 exampleHeapC).1
        = ⟨[6, 0, 80]⟩ := by
  decide

/-- C17, the code at a failing input: `a` is `/tcp/80` in a slice of length 3 and
capacity 8, `b` is `/tcp/81`, and `c` is the composite `a.Encapsulate(x)` with
`x` = `/tcp/82`, a window on the backing array of `a`.  From that state the
inner call `a.Encapsulate(b)` of `a.Encapsulate(b).Encapsulate(c)` writes over
`c`, and the expression gives `a ++ b ++ a ++ b`, while
`a.Encapsulate(b.Encapsulate(c))` gives `a ++ b ++ a ++ x`, the bytes
`a.Bytes ++ b.Bytes ++ c.Bytes` of the operands: the two groupings differ. -/
theorem Encapsulate_groupings_differ_on_shared_storage :
    exampleComposite.2.Bytes.array = exampleHeapA.Bytes.array ∧
      exampleHeapA.contents exampleComposite.1 = ⟨[6, 0, 80]⟩ ∧
      exampleHeapB.contents exampleComposite.1 = ⟨[6, 0, 81]⟩ ∧
      exampleComposite.2.contents exampleComposite.1 = ⟨[6, 0, 80, 6, 0, 82]⟩ ∧
      (encapsulateLeftGrouping exampleComposite.1 exampleHeapA exampleHeapB
          exampleComposite.2).2.contents
          (encapsulateLeftGrouping exampleComposite.1 exampleHeapA exampleHeapB
            exampleComposite.2).1
        = ⟨[6, 0, 80, 6, 0, 81, 6, 0, 80, 6, 0, 81]⟩ ∧
      (encapsulateRightGrouping exampleComposite.1 exampleHeapA exampleHeapB
          exampleComposite.2).2.contents
          (encapsulateRightGrouping exampleComposite.1 exampleHeapA exampleHeapB
            exampleComposite.2).1
        = ⟨[6, 0, 80, 6, 0, 81, 6, 0, 80, 6, 0, 82]⟩ := by
  decide

/-- C18, the code at failing inputs.  On separate arrays the two orders differ:
`/ip4/10.0.0.1` and `/tcp/80` give `/ip4/10.0.0.1/tcp/80` and
`/tcp/80/ip4/10.0.0.1`.  But with `a` = `/tcp/80` in a slice of capacity 16 and
`b` = `a.Encapsulate(x)`, a window on the array of `a`, the statements
`r1 := a.Encapsulate(b); r2 := b.Encapsulate(a)` leave `r1` and `r2` with the
same bytes although `a.Bytes ++ b.Bytes` and `b.Bytes ++ a.Bytes` differ:
for `x` = `/tcp/81` both read `/tcp/80/tcp/80/tcp/80`; for
`x` = `/tcp/81/tcp/80` each result, read right after its own call, is
`/tcp/80/tcp/80/tcp/81/tcp/80`, and the operands differ in the two orders both
before and after the calls. -/
theorem Encapsulate_orders_read_equal_on_shared_storage :
    ((encapsulateBothOrders exampleHeapIpTcp exampleHeapIp exampleHeapTcp).2.1.contents
          (encapsulateBothOrders exampleHeapIpTcp exampleHeapIp exampleHeapTcp).1
        = ⟨[4, 10, 0, 0, 1, 6, 0, 80]⟩ ∧
      (encapsulateBothOrders exampleHeapIpTcp exampleHeapIp exampleHeapTcp).2.2.contents
          (encapsulateBothOrders exampleHeapIpTcp exampleHeapIp exampleHeapTcp).1
        = ⟨[6, 0, 80, 4, 10, 0, 0, 1]⟩) ∧
    (exampleWideAX.2.Bytes.array = exampleWideA.Bytes.array ∧
      (exampleWideA.contents exampleWideAX.1).Bytes ++ (exampleWideAX.2.contents exampleWideAX.1).Bytes
        = [6, 0, 80, 6, 0, 80, 6, 0, 81] ∧
      (exampleWideAX.2.contents exampleWideAX.1).Bytes ++ (exampleWideA.contents exampleWideAX.1).Bytes
        = [6, 0, 80, 6, 0, 81, 6, 0, 80] ∧
      (encapsulateBothOrders exampleWideAX.1 exampleWideA exampleWideAX.2).2.1.contents
          (encapsulateBothOrders exampleWideAX.1 exampleWideA exampleWideAX.2).1
        = ⟨[6, 0, 80, 6, 0, 80, 6, 0, 80]⟩ ∧
      (encapsulateBothOrders exampleWideAX.1 exampleWideA exampleWideAX.2).2.2.contents
          (encapsulateBothOrders exampleWideAX.1 exampleWideA exampleWideAX.2).1
        = ⟨[6, 0, 80, 6, 0, 80, 6, 0, 80]⟩) ∧
    (exampleWideAY.2.Bytes.array = exampleWideA.Bytes.array ∧
      (exampleWideA.contents exampleWideAY.1).Bytes ++ (exampleWideAY.2.contents exampleWideAY.1).Bytes
        = [6, 0, 80, 6, 0, 80, 6, 0, 81, 6, 0, 80] ∧
      (exampleWideAY.2.contents exampleWideAY.1).Bytes ++ (exampleWideA.contents exampleWideAY.1).Bytes
        = [6, 0, 80, 6, 0, 81, 6, 0, 80, 6, 0, 80] ∧
      (exampleWideA.Encapsulate exampleWideAY.1 exampleWideAY.2).2.contents
          (exampleWideA.Encapsulate exampleWideAY.1 exampleWideAY.2).1
        = ⟨[6, 0, 80, 6, 0, 80, 6, 0, 81, 6, 0, 80]⟩ ∧
      (encapsulateBothOrders exampleWideAY.1 exampleWideA exampleWideAY.2).2.2.contents
          (encapsulateBothOrders exampleWideAY.1 exampleWideA exampleWideAY.2).1
        = ⟨[6, 0, 80, 6, 0, 80, 6, 0, 81, 6, 0, 80]⟩ ∧
      (exampleWideA.contents
            (encapsulateBothOrders exampleWideAY.1 exampleWideA exampleWideAY.2).1).Bytes
          ++ (exampleWideAY.2.contents
            (encapsulateBothOrders exampleWideAY.1 exampleWideA exampleWideAY.2).1).Bytes
        = [6, 0, 80, 6, 0, 80, 6, 0, 80, 6, 0, 81] ∧
      (exampleWideAY.2.contents
            (encapsulateBothOrders exampleWideAY.1 exampleWideA exampleWideAY.2).1).Bytes
          ++ (exampleWideA.contents
            (encapsulateBothOrders exampleWideAY.1 exampleWideA exampleWideAY.2).1).Bytes
        = [6, 0, 80, 6, 0, 80, 6, 0, 81, 6, 0, 80]) := by
  decide

end GoMultiaddr
